import Mathlib

/-
  Verification development for the `auction_appraiser` repository
  (a Streamlit appraisal tool, `src/app.py` plus a vestigial
  `src/services/pricing_engine.py`).

  Shallow embedding conventions:
  * Python `str` is modelled as `PyStr := List Char` (a sequence of code
    points).  ASCII case conversion matches Python's for the inputs the
    program handles (URLs, money strings).
  * Python `Decimal` is modelled by `Dec` (an integer mantissa with a
    power-of-ten denominator): every value a `Decimal` built by the
    program can hold is an exact finite decimal, and every operation the
    program applies to one (`<`, `==`, `to_integral`, `int()`,
    `f"{d:,.2f}"`) depends only on the exact value, which `Dec` carries.
  * Fallible calls return `Option`; a raised exception is `none`.
  * Network responses are oracles: a function from URL to the response
    the session would produce.  Within one run the session is fixed, so
    the oracle is a fixed function.
-/

set_option maxRecDepth 100000

abbrev PyStr := List Char

/-- Python whitespace for `str.strip()` on the ASCII range
(`" \t\n\r\x0b\x0c"`). -/
def pySpace (c : Char) : Bool :=
  c = ' ' || c = '\t' || c = '\n' || c = '\r' || c = (Char.ofNat 11) || c = (Char.ofNat 12)

/-- Python `str.strip()`. -/
def pyStrip (s : PyStr) : PyStr :=
  ((s.dropWhile pySpace).reverse.dropWhile pySpace).reverse

/-- Python truthiness of an `Optional[str]` (`None` and `""` are falsy). -/
def pyTruthy : Option PyStr → Bool
  | none => false
  | some s => !s.isEmpty

/-- Python `str.lower()` restricted to ASCII (the program lower-cases hostnames
and URLs, which are ASCII). -/
def pyLower (s : PyStr) : PyStr := s.map Char.toLower

-- ==========================================
-- Decimal digits and comma grouping
-- ==========================================

/-- Little-endian base-10 digits of `n`, with explicit fuel (`fuel = n`
is always enough); structural so that the kernel can evaluate it. -/
def natDigitsLE : ℕ → ℕ → List ℕ
  | 0, _ => []
  | _ + 1, 0 => []
  | f + 1, n => n % 10 :: natDigitsLE f (n / 10)

/-- Value of a little-endian base-10 digit list. -/
def natFromLE : List ℕ → ℕ
  | [] => 0
  | d :: ds => d + 10 * natFromLE ds

def digitChar (d : ℕ) : Char := Char.ofNat (48 + d)

def charVal (c : Char) : ℕ := c.toNat - 48

/-- Value of a big-endian digit-character list. -/
def natFromDigitChars (s : PyStr) : ℕ :=
  s.foldl (fun a c => 10 * a + charVal c) 0

/-- Comma grouping on a little-endian digit-character list: a comma
after every complete group of three digits that is followed by more
digits. -/
def leRender : List Char → PyStr
  | [] => []
  | [a] => [a]
  | [a, b] => [a, b]
  | [a, b, c] => [a, b, c]
  | a :: b :: c :: d :: t => a :: b :: c :: ',' :: leRender (d :: t)

/-- Format `f"{n:,}"` for a natural number: decimal digits grouped in threes
from the right with commas. -/
def groupNat (n : ℕ) : PyStr :=
  if n = 0 then ['0']
  else (leRender ((natDigitsLE n n).map digitChar)).reverse

-- ==========================================
-- src/app.py §6: MONEY SANITIZATION
-- ==========================================

/-- Exact finite decimal: value `m / 10 ^ e`.  Models Python `Decimal`
by its exact numeric value (see header). -/
structure Dec where
  m : ℤ
  e : ℕ
deriving DecidableEq

/-- Exact value comparison `a < b` on decimals (cross-multiplied). -/
def decLtB (a b : Dec) : Bool := decide (a.m * (10 : ℤ) ^ b.e < b.m * (10 : ℤ) ^ a.e)

/-- Test `d == d.to_integral()`: the value is an integer. -/
def decIntegralB (d : Dec) : Bool := decide (d.m % (10 : ℤ) ^ d.e = 0)

/-- Round-half-even division `m / dv` for `dv > 0` (the rounding
`f"{d:,.2f}"` applies, via `ROUND_HALF_EVEN`). -/
def halfEvenDiv (m dv : ℤ) : ℤ :=
  if 2 * m.fmod dv < dv then m.fdiv dv
  else if dv < 2 * m.fmod dv then m.fdiv dv + 1
  else if m.fdiv dv % 2 = 0 then m.fdiv dv else m.fdiv dv + 1

/-- The exact value of `d` expressed in cents, rounded half-even to an
integer when `d` has more than two decimal places. -/
def roundCents (d : Dec) : ℤ :=
  if d.e ≤ 2 then d.m * (10 : ℤ) ^ (2 - d.e)
  else halfEvenDiv d.m ((10 : ℤ) ^ (d.e - 2))

/-- Format `f"{i:,}"` for an integer. -/
def intComma (i : ℤ) : PyStr :=
  if i < 0 then '-' :: groupNat i.natAbs else groupNat i.natAbs

/-- Render a cent count the way `f"{d:,.2f}"` renders `d` (grouped
integer part, '.', exactly two fraction digits). -/
def centsRender (c : ℤ) : PyStr :=
  let a := c.natAbs
  (if c < 0 then ['-'] else []) ++
    groupNat (a / 100) ++ '.' :: [digitChar (a % 100 / 10), digitChar (a % 10)]

/-- Source `app.py::_format_money`: `"$%d,…"` when the value is integral,
otherwise `f"${d:,.2f}"`. -/
def format_money (d : Dec) : PyStr :=
  if decIntegralB d then '$' :: intComma (d.m / (10 : ℤ) ^ d.e)
  else '$' :: centsRender (roundCents d)

/-- Helper for `re.sub(r"<[^>]+>", "", s)`: from the char after a `'<'`,
find the first `'>'` preceded by at least one character, returning the
suffix after it. -/
def nextGtGo : PyStr → Option PyStr
  | [] => none
  | '>' :: t => some t
  | _ :: t => nextGtGo t

def nextGt : PyStr → Option PyStr
  | [] => none
  | '>' :: _ => none
  | _ :: t => nextGtGo t

def stripTagsGo : ℕ → PyStr → PyStr
  | 0, s => s
  | _ + 1, [] => []
  | f + 1, '<' :: t =>
    match nextGt t with
    | some r => stripTagsGo f r
    | none => '<' :: stripTagsGo f t
  | f + 1, c :: t => c :: stripTagsGo f t

/-- Model of `re.sub(r"<[^>]+>", "", s)`: delete every `<…>` span. -/
def stripTags (s : PyStr) : PyStr := stripTagsGo s.length s

/-
  `MONEY_CAPTURE_RE = (?:(?:USD|US\$)\s*)?\$?\s*([0-9]{1,3}(?:,[0-9]{3})*
  (?:\.[0-9]{1,2})?|[0-9]+(?:\.[0-9]{1,2})?)` with `re.search`.

  Python regex semantics: `search` tries positions left to right and
  alternation is ordered.  The capture group must begin with a digit,
  and the optional prefixes (`USD`, `US$`, `$`, spaces) consume no
  digits, so the capture always begins at the FIRST digit of the
  string.  There the first alternative `[0-9]{1,3}(…)*(…)?` always
  succeeds (everything after `[0-9]{1,3}` is optional), taking greedily
  up to three digits, then `,ddd` groups, then `.d`/`.dd`; the second
  alternative `[0-9]+…` is therefore unreachable.  The scanner below
  implements exactly that.
-/

/-- Take up to `k` leading digit characters. -/
def takeDigitsUpTo : ℕ → PyStr → List Char × PyStr
  | 0, s => ([], s)
  | _ + 1, [] => ([], [])
  | k + 1, c :: t =>
    if c.isDigit then
      let (ds, r) := takeDigitsUpTo k t
      (c :: ds, r)
    else ([], c :: t)

/-- Pattern `(?:,[0-9]{3})*`: consume comma-plus-three-digit groups, returning
the digits (commas dropped, as `group(1).replace(",", "")` does). -/
def scanGroups : PyStr → List Char × PyStr
  | ',' :: a :: b :: c :: t =>
    if a.isDigit && b.isDigit && c.isDigit then
      let (ds, r) := scanGroups t
      (a :: b :: c :: ds, r)
    else ([], ',' :: a :: b :: c :: t)
  | s => ([], s)

/-- Pattern `(?:\.[0-9]{1,2})?`: an optional dot followed greedily by one or
two digits. -/
def scanFrac : PyStr → List Char
  | '.' :: a :: b :: _ =>
    if a.isDigit then (if b.isDigit then [a, b] else [a]) else []
  | ['.', a] => if a.isDigit then [a] else []
  | _ => []

/-- Suffix of `s` starting at its first digit. -/
def findFirstDigit : PyStr → Option PyStr
  | [] => none
  | c :: t => if c.isDigit then some (c :: t) else findFirstDigit t

/-- Model of `MONEY_CAPTURE_RE.search(s)`, returning the captured token split
into integer digits (commas removed) and fraction digits. -/
def moneyToken (s : PyStr) : Option (List Char × List Char) :=
  match findFirstDigit s with
  | none => none
  | some t =>
    let (d1, r1) := takeDigitsUpTo 3 t
    let (d2, r2) := scanGroups r1
    (d1 ++ d2, scanFrac r2)

/-- The `Any` argument of `_to_decimal_money`: `None`, a value that is
already numeric (`Decimal`, `int`, `float` — all exact finite decimals
after `Decimal(str(v))`), or a string. -/
inductive MoneyInput where
  | noneV : MoneyInput
  | dec (d : Dec) : MoneyInput
  | str (s : PyStr) : MoneyInput

/-- Source `app.py::_to_decimal_money`. -/
def to_decimal_money : MoneyInput → Option Dec
  | .noneV => none
  | .dec d => some d
  | .str s =>
    let s := pyStrip (stripTags s)
    if s.isEmpty then none
    else
      match moneyToken s with
      | none => none
      | some (ds, fs) => some ⟨(natFromDigitChars (ds ++ fs) : ℤ), fs.length⟩

/-- Source `app.py::_sanitize_money`: parse, gate to `$1 … $200,000,000`,
format. -/
def sanitize_money (v : MoneyInput) : Option PyStr :=
  match to_decimal_money v with
  | none => none
  | some d =>
    if decLtB d ⟨1, 0⟩ || decLtB ⟨200000000, 0⟩ d then none
    else some (format_money d)

/-- Source `app.py::_sanitize_range`: parse both bounds, swap if inverted,
reject if either end is below `$1` (note: no upper-bound check). -/
def sanitize_range (lo hi : MoneyInput) : Option PyStr × Option PyStr :=
  match to_decimal_money lo, to_decimal_money hi with
  | some dlo, some dhi =>
    let p := if decLtB dhi dlo then (dhi, dlo) else (dlo, dhi)
    if decLtB p.1 ⟨1, 0⟩ || decLtB p.2 ⟨1, 0⟩ then (none, none)
    else (some (format_money p.1), some (format_money p.2))
  | _, _ => (none, none)

-- ==========================================
-- src/app.py §3/§4: hostname and domain-based kind
-- ==========================================

/-- Scheme characters accepted by `urllib.parse` after the first
letter: ASCII letters, digits, `+`, `-`, `.`. -/
def schemeChar (c : Char) : Bool :=
  c.isAlpha || c.isDigit || c = '+' || c = '-' || c = '.'

/-- Preprocessing of `urlsplit`: remove every tab/CR/LF and strip leading
and trailing C0-control-or-space characters. -/
def urlClean (u : PyStr) : PyStr :=
  let u := u.filter (fun c => !(c = '\t' || c = '\r' || c = '\n'))
  ((u.dropWhile (fun c => c.toNat ≤ 32)).reverse.dropWhile (fun c => c.toNat ≤ 32)).reverse

/-- Split off `scheme:` as `urllib.parse.urlsplit` does: a leading
letter followed by scheme characters up to the first `':'`.  Returns
(lower-cased scheme if any, remainder). -/
def splitSchemeRest (u : PyStr) : Option PyStr × PyStr :=
  match u.findIdx? (· = ':') with
  | none => (none, u)
  | some i =>
    if 0 < i then
      let cand := u.take i
      if (cand.headD ' ').isAlpha && cand.all schemeChar then
        (some (pyLower cand), u.drop (i + 1))
      else (none, u)
    else (none, u)

/-- The netloc of a URL per `urlsplit`: present only when the
(post-scheme) remainder begins with `"//"`; runs to the first of
`'/'`, `'?'`, `'#'`.  `none` models the `ValueError` urlsplit raises
on a netloc with unbalanced square brackets. -/
def netlocOf (u : PyStr) : Option PyStr :=
  let rest := (splitSchemeRest (urlClean u)).2
  match rest with
  | '/' :: '/' :: t =>
    let nl := t.takeWhile (fun c => !(c = '/' || c = '?' || c = '#'))
    if (nl.contains '[' && !nl.contains ']') || (nl.contains ']' && !nl.contains '[') then
      none
    else some nl
  | _ => some []

/-- Source `app.py::_hostname`: `urlparse(url).netloc.lower()` with a leading
`"www."` stripped; any exception yields `""`. -/
def hostname (url : PyStr) : PyStr :=
  match netlocOf url with
  | none => []
  | some nl =>
    let h := pyLower nl
    if ("www.".data).isPrefixOf h then h.drop 4 else h

def AUCTION_DOMAINS : List PyStr :=
  ["liveauctioneers.com".data, "bidsquare.com".data, "sothebys.com".data, "christies.com".data]

def RETAIL_DOMAINS : List PyStr :=
  ["1stdibs.com".data, "chairish.com".data, "incollect.com".data, "rauantiques.com".data]

/-- Model of `any(host.endswith(d) for d in AUCTION_DOMAINS)`. -/
def hostMatchesAuction (host : PyStr) : Bool :=
  AUCTION_DOMAINS.any (fun d => d.isSuffixOf host)

def hostMatchesRetail (host : PyStr) : Bool :=
  RETAIL_DOMAINS.any (fun d => d.isSuffixOf host)

/-- Source `app.py::_kind_from_domain`. -/
def kind_from_domain (url : PyStr) : PyStr :=
  let host := hostname url
  if hostMatchesAuction host then ("auction".data)
  else if hostMatchesRetail host then ("retail".data)
  else ("other".data)

-- ==========================================
-- src/app.py §7: HTTP fetch
-- ==========================================

/-- Source `app.py::_fetch_html` applied to the session's response for the
URL: `none` response models a raised network/timeout exception;
otherwise `(body, status)`.  Status `>= 400` yields no body; a body is
truncated to 1,200,000 characters. -/
def fetch_html (resp : Option (PyStr × ℕ)) : Option PyStr × Option ℕ :=
  match resp with
  | none => (none, none)
  | some (t, status) =>
    if 400 ≤ status then (none, some status)
    else (some (t.take 1200000), some status)

/-- Python `urllib.parse.quote_plus` on a single character: unreserved ASCII
kept, space to `'+'`, everything else percent-encoded per UTF-8 byte. -/
def hexDigit (n : ℕ) : Char := if n < 10 then digitChar n else Char.ofNat (55 + n)

def pctByte (b : ℕ) : List Char := ['%', hexDigit (b / 16), hexDigit (b % 16)]

/-- UTF-8 bytes of a code point. -/
def utf8Bytes (n : ℕ) : List ℕ :=
  if n < 128 then [n]
  else if n < 2048 then [192 + n / 64, 128 + n % 64]
  else if n < 65536 then [224 + n / 4096, 128 + n / 64 % 64, 128 + n % 64]
  else [240 + n / 262144, 128 + n / 4096 % 64, 128 + n / 64 % 64, 128 + n % 64]

def quotePlusChar (c : Char) : List Char :=
  if c.isAlphanum || c = '_' || c = '.' || c = '-' || c = '~' then [c]
  else if c = ' ' then ['+']
  else (utf8Bytes c.toNat).flatMap pctByte

/-- Python `urllib.parse.quote_plus`. -/
def quotePlus (s : PyStr) : PyStr := s.flatMap quotePlusChar

-- ==========================================
-- src/app.py §11: enrichment with scrape cache and budget
-- ==========================================

/-- A search-result listing (a Python dict).  `title`/`source`/`link`/
`thumbnail` and the price fields are only ever read through
`m.get(...)`, so a missing key and a `None` value behave identically
and are both modelled by `none`.  `kind` and `confidence` are written
with `setdefault`, which distinguishes a missing key from a stored
`None`, so they are two-level. -/
structure Listing where
  title : Option PyStr
  source : Option PyStr
  link : Option PyStr
  thumbnail : Option PyStr
  kind : Option (Option PyStr)
  confidence : Option (Option ℚ)
  retail_price : Option PyStr
  auction_low : Option PyStr
  auction_high : Option PyStr
  auction_reserve : Option PyStr
  product_url : Option PyStr
  http_status : Option (Option ℕ)
deriving DecidableEq

/-- The partial field-update dict built per URL (`update` in
`enrich_matches_with_prices`): `none` = key absent from the dict;
`some v` = key present with value `v` (which may itself be `None`). -/
structure Update where
  http_status : Option (Option ℕ) := none
  product_url : Option PyStr := none
  link : Option PyStr := none
  retail_price : Option (Option PyStr) := none
  auction_low : Option (Option PyStr) := none
  auction_high : Option (Option PyStr) := none
  auction_reserve : Option (Option PyStr) := none
deriving DecidableEq

/-- Model of `m.update(u)`: every key present in `u` overwrites the listing's
field. -/
def applyUpdate (m : Listing) (u : Update) : Listing :=
  { m with
    http_status := match u.http_status with | some v => some v | none => m.http_status
    product_url := match u.product_url with | some v => some v | none => m.product_url
    link := match u.link with | some v => some v | none => m.link
    retail_price := match u.retail_price with | some v => v | none => m.retail_price
    auction_low := match u.auction_low with | some v => v | none => m.auction_low
    auction_high := match u.auction_high with | some v => v | none => m.auction_high
    auction_reserve := match u.auction_reserve with | some v => v | none => m.auction_reserve }

/-- Which call site performed a network fetch. -/
inductive FetchTag where
  | listing
  | chairishSearch
  | login
deriving DecidableEq

/-- The ambient run state: the `st.session_state["scrape_cache"]` dict,
the `scraped` budget counter, and an event trace of network fetches. -/
structure RunState where
  cache : List (PyStr × Update)
  scraped : ℕ
  trace : List (FetchTag × PyStr)

def cacheGet (cache : List (PyStr × Update)) (k : PyStr) : Option Update :=
  (cache.find? (fun e => e.1 == k)).map (·.2)

/-- The run's external collaborators.  Functions of page content are
pure in the source, so they appear here as oracles the theorems
quantify over:
* `net u`: what `session.get(u)` would return (`none` = the request
  raised); fixed for the whole run, since the session is.
* `findProduct html thumb title base` abstracts
  `_find_chairish_product_link_by_image`, a pure regex scan of the
  page; `none` covers both "no candidate" and a raised exception (each
  call site wraps it in `try/except` yielding `None`).
* `retailExtract host html` abstracts the branch at app.py:715-720.
  Its three callees (`_extract_1stdibs_price`, `_extract_chairish_price`,
  `_extract_retail_price_generic`) are not defined anywhere under
  `src/`, so in the source as given this call raises `NameError`
  (modelled by `none`, caught by the `except` at app.py:742); the
  spec-modelled extractor below instantiates the chairish case.
* `auctionExtract host html` abstracts
  `_get_auction_estimates_by_host`, a total pure function of the page.
* `geminiRetail`/`geminiAuction` abstract the generative fallbacks
  (`_gemini_extract_*_from_text` composed with `_clean_html_text`);
  `none` = the call raised after its retries were exhausted. -/
structure Env where
  net : PyStr → Option (PyStr × ℕ)
  findProduct : PyStr → PyStr → PyStr → PyStr → Option PyStr
  retailExtract : PyStr → PyStr → Option (Option PyStr)
  auctionExtract : PyStr → PyStr → Option PyStr × Option PyStr × Option PyStr
  geminiRetail : PyStr → PyStr → Option (Option PyStr)
  geminiAuction : PyStr → PyStr → Option (Option PyStr × Option PyStr × Option PyStr)
  useGemini : Bool
  useLaLogin : Bool
  loginFetches : List PyStr

/-- Python `x or y` on `Optional[str]`. -/
def pyOr (a b : Option PyStr) : Option PyStr := if pyTruthy a then a else b

/-- Model of `m.setdefault("kind", _kind_from_domain(original_url))` and
`kind = m.get("kind")`: the value `kind` holds after the setdefault. -/
def kindAfterDefault (m : Listing) (url : PyStr) : Option PyStr :=
  match m.kind with
  | none => some (kind_from_domain url)
  | some k => k

def rstripSlash (s : PyStr) : PyStr := (s.reverse.dropWhile (· = '/')).reverse

/-- The `try:` block at app.py:713-744 (price extraction with
generative fallback).  A raised exception anywhere inside aborts the
rest of the block and is swallowed, leaving `u` as built so far. -/
def enrichPrices (env : Env) (host url : PyStr) (kindVal : Option PyStr)
    (html : PyStr) (u : Update) : Update :=
  match kindVal with
  | some k =>
    if k = "retail".data then
      match env.retailExtract host html with
      | none => u
      | some rp =>
        let u1 := { u with retail_price := some rp }
        if !pyTruthy rp && env.useGemini then
          match env.geminiRetail html url with
          | none => u1
          | some ai => if pyTruthy ai then { u1 with retail_price := some ai } else u1
        else u1
    else if k = "auction".data then
      match env.auctionExtract host html with
      | (lo, hi, rv) =>
        let u1 := { u with auction_low := some lo, auction_high := some hi,
                           auction_reserve := some rv }
        if (!pyTruthy lo || !pyTruthy hi) && env.useGemini then
          match env.geminiAuction html url with
          | none => u1
          | some (al, ah, ar) =>
            { u1 with auction_low := some (pyOr lo al), auction_high := some (pyOr hi ah),
                      auction_reserve := some (pyOr rv ar) }
        else u1
    else u
  | none => u

/-- The search-page fallback inside the Chairish branch
(app.py:685-693): fetch `base/search?query=<title>` (an uncached fetch)
and re-run the product-link resolver on the result. -/
def chairishSearchStep (env : Env) (st1 : RunState) (base title thumb : PyStr) :
    Option PyStr × RunState :=
  let q := base ++ "/search?query=".data ++ quotePlus title
  let sf := fetch_html (env.net q)
  let st2 : RunState := { st1 with trace := st1.trace ++ [(FetchTag.chairishSearch, q)] }
  if pyTruthy sf.1 then (env.findProduct (sf.1.getD []) thumb title base, st2)
  else (none, st2)

/-- The Chairish canonical-product branch (app.py:672-710): resolve a
non-canonical chairish link to a `/product/` URL, possibly fetching one
search page.  Returns the update so far and the run state (only its
trace can change here). -/
def chairishResolve (env : Env) (st1 : RunState) (url host html title thumb : PyStr)
    (upd0 : Update) : Update × RunState :=
  if ("chairish.com".data).isSuffixOf host then
    let base := ((splitSchemeRest (urlClean url)).1.getD []) ++ "://".data
                  ++ ((netlocOf url).getD [])
    let cpfx := rstripSlash base ++ "/product/".data
    if !cpfx.isPrefixOf url then
      let p1 := env.findProduct html thumb title base
      let ps :=
        if p1.isNone && !title.isEmpty then chairishSearchStep env st1 base title thumb
        else (p1, st1)
      let upd :=
        match ps.1 with
        | some p =>
          if cpfx.isPrefixOf p then { upd0 with product_url := some p, link := some p }
          else upd0
        | none => upd0
      (upd, ps.2)
    else ({ upd0 with product_url := some url }, st1)
  else (upd0, st1)

/-- One iteration of the `for m in matches:` loop in
`enrich_matches_with_prices` (the caller has already checked the
budget).  Returns the listing (mutated in place in Python) and the new
run state. -/
def enrichStep (env : Env) (st : RunState) (m : Listing) : Listing × RunState :=
  let url := pyStrip (m.link.getD [])
  if url.isEmpty then (m, st)
  else
    let host := hostname url
    if !(hostMatchesAuction host || hostMatchesRetail host) then (m, st)
    else
      let kindVal : Option PyStr := kindAfterDefault m url
      let m1 := { m with kind := some kindVal }
      let title := pyStrip (m.title.getD [])
      let thumb := pyStrip (m.thumbnail.getD [])
      match cacheGet st.cache url with
      | some cu => (applyUpdate m1 cu, { st with scraped := st.scraped + 1 })
      | none =>
        let fr := fetch_html (env.net url)
        let st1 : RunState := { st with trace := st.trace ++ [(FetchTag.listing, url)] }
        let upd0 : Update := { http_status := some fr.2 }
        if !pyTruthy fr.1 then
          (applyUpdate m1 upd0,
           { st1 with cache := (url, upd0) :: st1.cache, scraped := st1.scraped + 1 })
        else
          let html := fr.1.getD []
          let bs := chairishResolve env st1 url host html title thumb upd0
          let upd2 := enrichPrices env host url kindVal html bs.1
          (applyUpdate m1 upd2,
           { bs.2 with cache := (url, upd2) :: bs.2.cache, scraped := bs.2.scraped + 1 })

/-- The loop body of `enrich_matches_with_prices`: break as soon as
`scraped >= max_to_scrape`, leaving the rest of the list untouched. -/
def enrichGo (env : Env) (maxN : ℕ) : RunState → List Listing → List Listing × RunState
  | st, [] => ([], st)
  | st, m :: rest =>
    if maxN ≤ st.scraped then (m :: rest, st)
    else
      let p := enrichStep env st m
      let pr := enrichGo env maxN p.2 rest
      (p.1 :: pr.1, pr.2)

/-- Source `app.py::enrich_matches_with_prices`: the scrape cache lives in
session state and so survives between invocations within a run
(`cache0`); `scraped` restarts at 0 per invocation; the optional
LiveAuctioneers login may fetch pages before the loop. -/
def enrich_matches_with_prices (env : Env) (cache0 : List (PyStr × Update))
    (ms : List Listing) (maxN : ℕ) : List Listing × RunState :=
  enrichGo env maxN
    ⟨cache0, 0,
      if env.useLaLogin then env.loginFetches.map (fun u => (FetchTag.login, u)) else []⟩
    ms

/-- A listing the enrichment loop will spend budget on: non-empty
(stripped) link whose host suffix-matches a supported domain. -/
def inScope (m : Listing) : Bool :=
  !(pyStrip (m.link.getD [])).isEmpty &&
    (hostMatchesAuction (hostname (pyStrip (m.link.getD []))) ||
      hostMatchesRetail (hostname (pyStrip (m.link.getD []))))

-- ==========================================
-- src/app.py: run handler classification (lines 1040-1052)
-- ==========================================

/-- The dict built per SerpAPI visual match (app.py:1040-1048): exactly
the four keys `title`/`source`/`link`/`thumbnail`. -/
def mkRawMatch (title source link thumbnail : Option PyStr) : Listing :=
  { title := title, source := source, link := link, thumbnail := thumbnail,
    kind := none, confidence := none, retail_price := none, auction_low := none,
    auction_high := none, auction_reserve := none, product_url := none,
    http_status := none }

/-- app.py:1050-1052: `m["kind"] = _kind_from_domain(m.get("link") or
"")`, then `m.setdefault("confidence", 0.75 if kind in
("auction","retail") else 0.35)`. -/
def assignKindConfidence (m : Listing) : Listing :=
  let k := kind_from_domain (m.link.getD [])
  let m1 := { m with kind := some (some k) }
  let conf : ℚ := if k = "auction".data ∨ k = "retail".data then 3 / 4 else 7 / 20
  match m1.confidence with
  | none => { m1 with confidence := some (some conf) }
  | some _ => m1

-- ==========================================
-- src/app.py §5: Gemini retry loop
-- ==========================================

def geminiJsonGo (attempt : ℕ → Option α) : ℕ → ℕ → Option α
  | _, 0 => none
  | i, k + 1 =>
    match attempt i with
    | some v => some v
    | none => geminiJsonGo attempt (i + 1) k

/-- Retry loop of `app.py::_gemini_json`: `attempt i` models the i-th
`generate_content` + `json.loads` (`none` = that attempt raised); after
`retries` failed attempts the function raises `RuntimeError`, modelled
as `none` (the backoff sleeps do not affect the value). -/
def gemini_json (attempt : ℕ → Option α) (retries : ℕ) : Option α :=
  geminiJsonGo attempt 0 retries

-- ==========================================
-- Generative bulk classification with keyword fallback
-- (spec §4.6; the classifier itself is not under src/)
-- ==========================================

/-- Modelled from the spec: the weighted auction-indicative term list
of the pure keyword-heuristic classification fallback of §4.6
("weighted term lists (auction-indicative vs. retail-indicative
substrings found across title/source/link)").  The bulk classifier and
its fallback are described by the spec but are not defined anywhere
under src/. -/
def AUCTION_TERMS : List (PyStr × ℕ) :=
  [("auction".data, 3), ("sotheby".data, 3), ("christie".data, 3),
   ("liveauctioneers".data, 3), ("bidsquare".data, 3), ("estimate".data, 2),
   ("bid".data, 2), ("lot ".data, 2)]

/-- Modelled from the spec: the weighted retail-indicative term list of
§4.6's keyword fallback. -/
def RETAIL_TERMS : List (PyStr × ℕ) :=
  [("1stdibs".data, 3), ("chairish".data, 3), ("incollect".data, 3),
   ("rauantiques".data, 3), ("shop".data, 2), ("buy".data, 2),
   ("price".data, 1), ("sale".data, 1)]

/-- Substring containment, Python `needle in hay`. -/
def isSubstr (p : PyStr) : PyStr → Bool
  | [] => p.isEmpty
  | c :: t => p.isPrefixOf (c :: t) || isSubstr p t

def termScore (hay : PyStr) (terms : List (PyStr × ℕ)) : ℕ :=
  (terms.filter (fun t => isSubstr t.1 hay)).foldl (fun a t => a + t.2) 0

/-- A classification result: by construction both fields exist
(non-null). -/
structure ClassifyOut where
  kind : PyStr
  confidence : ℚ
deriving DecidableEq

/-- Modelled from the spec: §4.6's pure keyword-heuristic
classification over title/source/link — weighted term scores compared,
a low confidence attached. -/
def keywordClassify (title source link : PyStr) : ClassifyOut :=
  let hay := pyLower (title ++ ' ' :: source ++ ' ' :: link)
  let a := termScore hay AUCTION_TERMS
  let r := termScore hay RETAIL_TERMS
  if r < a then ⟨"auction".data, 2 / 5⟩
  else if a < r then ⟨"retail".data, 2 / 5⟩
  else ⟨"other".data, 3 / 10⟩

structure BatchItem where
  title : PyStr
  source : PyStr
  link : PyStr

/-- Modelled from the spec: §4.6's `classifyAndExtractBatch` — one
batched generative call through the bounded retry loop of
`_gemini_json` (which IS under src/); on success the positionally
aligned model output is used, on exhaustion of retries the pure
keyword heuristic classifies every listing. -/
def classifyAndExtractBatch (attempt : ℕ → Option (List ClassifyOut)) (retries : ℕ)
    (ls : List BatchItem) : List ClassifyOut :=
  match gemini_json attempt retries with
  | some outs => outs
  | none => ls.map (fun l => keywordClassify l.title l.source l.link)

-- ==========================================
-- JSON-LD retail price extraction
-- (spec §4.4; `_extract_chairish_price` is not under src/)
-- ==========================================

/-- A parsed JSON value; numbers are exact decimals `m / 10 ^ e`
(exponent-free numerals, which is what ld+json price markup uses). -/
inductive Json where
  | null : Json
  | bool (b : Bool) : Json
  | num (m : ℤ) (e : ℕ) : Json
  | str (s : PyStr) : Json
  | arr (xs : List Json) : Json
  | obj (kvs : List (PyStr × Json)) : Json

def skipWs (s : PyStr) : PyStr :=
  s.dropWhile (fun c => c = ' ' || c = '\n' || c = '\t' || c = '\r')

/-- JSON string body after the opening quote, with the basic escapes. -/
def parseStringBody : ℕ → PyStr → Option (PyStr × PyStr)
  | 0, _ => none
  | _ + 1, [] => none
  | f + 1, c :: t =>
    if c = '"' then some ([], t)
    else if c = '\\' then
      match t with
      | [] => none
      | e :: t2 =>
        let ch : Option Char :=
          if e = '"' then some '"' else if e = '\\' then some '\\'
          else if e = '/' then some '/' else if e = 'n' then some '\n'
          else if e = 't' then some '\t' else if e = 'r' then some '\r'
          else if e = 'b' then some (Char.ofNat 8) else if e = 'f' then some (Char.ofNat 12)
          else none
        match ch with
        | none => none
        | some ch => (parseStringBody f t2).map (fun p => (ch :: p.1, p.2))
    else (parseStringBody f t).map (fun p => (c :: p.1, p.2))

/-- A JSON numeral (integer or integer-dot-fraction). -/
def parseNum (s : PyStr) : Option (Json × PyStr) :=
  let np := match s with | '-' :: t => (true, t) | _ => (false, s)
  let ds := np.2.span Char.isDigit
  if ds.1.isEmpty then none
  else
    let sign : ℤ := if np.1 then -1 else 1
    match ds.2 with
    | '.' :: t =>
      let fs := t.span Char.isDigit
      if fs.1.isEmpty then none
      else some (.num (sign * (natFromDigitChars (ds.1 ++ fs.1) : ℤ)) fs.1.length, fs.2)
    | r => some (.num (sign * (natFromDigitChars ds.1 : ℤ)) 0, r)

mutual
def parseJsonF : ℕ → PyStr → Option (Json × PyStr)
  | 0, _ => none
  | f + 1, s =>
    match skipWs s with
    | '{' :: t =>
      (match skipWs t with
       | '}' :: r => some (.obj [], r)
       | t2 => (parseMembers f t2).map (fun p => (Json.obj p.1, p.2)))
    | '[' :: t =>
      (match skipWs t with
       | ']' :: r => some (.arr [], r)
       | t2 => (parseItems f t2).map (fun p => (Json.arr p.1, p.2)))
    | '"' :: t => (parseStringBody (t.length + 1) t).map (fun p => (Json.str p.1, p.2))
    | 't' :: 'r' :: 'u' :: 'e' :: t => some (.bool true, t)
    | 'f' :: 'a' :: 'l' :: 's' :: 'e' :: t => some (.bool false, t)
    | 'n' :: 'u' :: 'l' :: 'l' :: t => some (.null, t)
    | rest => parseNum rest

def parseMembers : ℕ → PyStr → Option (List (PyStr × Json) × PyStr)
  | 0, _ => none
  | f + 1, s =>
    match skipWs s with
    | '"' :: t =>
      (match parseStringBody (t.length + 1) t with
       | none => none
       | some (k, r1) =>
         match skipWs r1 with
         | ':' :: r2 =>
           (match parseJsonF f r2 with
            | none => none
            | some (v, r3) =>
              match skipWs r3 with
              | ',' :: r4 => (parseMembers f r4).map (fun p => ((k, v) :: p.1, p.2))
              | '}' :: r4 => some ([(k, v)], r4)
              | _ => none)
         | _ => none)
    | _ => none

def parseItems : ℕ → PyStr → Option (List Json × PyStr)
  | 0, _ => none
  | f + 1, s =>
    match parseJsonF f s with
    | none => none
    | some (v, r) =>
      match skipWs r with
      | ',' :: r2 => (parseItems f r2).map (fun p => (v :: p.1, p.2))
      | ']' :: r2 => some ([v], r2)
      | _ => none
end

/-- Whole-document parse in the style of `json.loads`. -/
def parseJson (s : PyStr) : Option Json :=
  match parseJsonF (s.length + 1) s with
  | some (v, r) => if (skipWs r).isEmpty then some v else none
  | none => none

/-- Content span up to the next `"</script"`. -/
def takeUntilCloseScript : ℕ → PyStr → PyStr
  | 0, _ => []
  | _ + 1, [] => []
  | f + 1, c :: t =>
    if ("</script".data).isPrefixOf (c :: t) then []
    else c :: takeUntilCloseScript f t

def ldJsonBlocksGo : ℕ → PyStr → List PyStr
  | 0, _ => []
  | _ + 1, [] => []
  | f + 1, c :: t =>
    if ("application/ld+json".data).isPrefixOf (c :: t) then
      let r1 := ((c :: t).dropWhile (· ≠ '>')).drop 1
      let content := takeUntilCloseScript r1.length r1
      content :: ldJsonBlocksGo f (r1.drop content.length)
    else ldJsonBlocksGo f t

/-- Modelled from the spec: the raw contents of every
`application/ld+json` script block of a page (the `<script
type="application/ld+json">…</script>` spans of §4.4). -/
def ldJsonBlocks (html : PyStr) : List PyStr := ldJsonBlocksGo html.length html

def jLookup (kvs : List (PyStr × Json)) (k : PyStr) : Option Json :=
  (kvs.find? (fun e => e.1 == k)).map (·.2)

/-- Offer-like node: `@type` containing "Offer" (spec §4.4). -/
def isOfferNode (kvs : List (PyStr × Json)) : Bool :=
  match jLookup kvs ("@type".data) with
  | some (.str t) => isSubstr ("Offer".data) t
  | _ => false

/-- Check that `priceCurrency`/`currency` equals USD (spec §4.4). -/
def offerCurrencyUSD (kvs : List (PyStr × Json)) : Bool :=
  match (jLookup kvs ("priceCurrency".data)).orElse (fun _ => jLookup kvs ("currency".data)) with
  | some (.str c) => c == "USD".data
  | _ => false

def offerPriceVals (kvs : List (PyStr × Json)) : List Json :=
  ["price".data, "lowPrice".data, "highPrice".data].filterMap (jLookup kvs)

/-- Recursively collect the price values of USD offer-like nodes. -/
def offerPricesGo : ℕ → Json → List Json
  | 0, _ => []
  | f + 1, .obj kvs =>
    (if isOfferNode kvs && offerCurrencyUSD kvs then offerPriceVals kvs else [])
      ++ kvs.flatMap (fun e => offerPricesGo f e.2)
  | f + 1, .arr xs => xs.flatMap (offerPricesGo f)
  | _ + 1, _ => []

def jsonMoneyInput : Json → Option MoneyInput
  | .str s => some (.str s)
  | .num m e => some (.dec ⟨m, e⟩)
  | _ => none

/-- Lowest element of a list of decimals by exact value. -/
def minDec : List Dec → Option Dec
  | [] => none
  | d :: t => some (t.foldl (fun a b => if decLtB b a then b else a) d)

/-- Modelled from the spec: `_extract_chairish_price` is called at
app.py:718 but defined nowhere under src/.  Per §4.4 it parses
`application/ld+json` blocks into structured objects, recursively
searches them for offer-like nodes (`@type` containing "Offer")
carrying a `price`/`lowPrice`/`highPrice` with `priceCurrency`/
`currency` equal to USD, prefers the lowest plausible candidate
(retail-specific behaviour), and canonicalizes it through the money
normalizer of src (`_to_decimal_money`'s plausibility band and
`_format_money`, i.e. what `_sanitize_money` applies). -/
def extract_chairish_price (html : PyStr) : Option PyStr :=
  let cands := (ldJsonBlocks html).flatMap
    (fun b =>
      match parseJson b with
      | some j => offerPricesGo (b.length + 1) j
      | none => [])
  let decs := (cands.filterMap jsonMoneyInput).filterMap to_decimal_money
  let plaus := decs.filter (fun d => !(decLtB d ⟨1, 0⟩ || decLtB ⟨200000000, 0⟩ d))
  match minDec plaus with
  | none => none
  | some d => some (format_money d)

-- ==========================================
-- Concrete runs used by the claim theorems
-- ==========================================

/-- The C1 scenario page: HTML whose `application/ld+json` block is a
USD Offer with `"price": "2400.00"`. -/
def htmlC1 : PyStr :=
  ("<html><head><script type=\"application/ld+json\">" ++
   "\x7b\"@type\":\"Offer\",\"price\":\"2400.00\",\"priceCurrency\":\"USD\"\x7d" ++
   "</script></head><body>p</body></html>").data

def linkC1 : PyStr := "https://www.chairish.com/product/abc123".data

/-- The C1 input listing after the run handler's classification. -/
def listingC1 : Listing :=
  assignKindConfidence
    (mkRawMatch (some ("Louis XVI Bergère".data)) (some ("Chairish".data)) (some linkC1) none)

/-- Environment for the C1 scenario: the network returns `htmlC1` for
the listing URL; the retail extraction uses the spec-modelled
`extract_chairish_price` (the host is chairish.com). -/
def envC1 : Env :=
  { net := fun u => if u == linkC1 then some (htmlC1, 200) else none
    findProduct := fun _ _ _ _ => none
    retailExtract := fun _ html => some (extract_chairish_price html)
    auctionExtract := fun _ _ => (none, none, none)
    geminiRetail := fun _ _ => none
    geminiAuction := fun _ _ => none
    useGemini := true
    useLaLogin := false
    loginFetches := [] }

/-- The C6 scenario: listing A's link is exactly the Chairish search
URL that listing B's canonical-product resolution will fetch. -/
def linkA6 : PyStr := "https://www.chairish.com/search?query=chair".data

def linkB6 : PyStr := "https://www.chairish.com/lot/xyz".data

/-- Environment for the C6 scenario.  Every page is the two-character
body `"zz"`; since `"zz"` contains no `"/product/"` substring, neither
regex of `_find_chairish_product_link_by_image` can match on it, so
the resolver returns `None` — hence `findProduct` is the constant
`none`, which agrees with the source on every page this run fetches. -/
def env6 : Env :=
  { net := fun _ => some ("zz".data, 200)
    findProduct := fun _ _ _ _ => none
    retailExtract := fun _ _ => none
    auctionExtract := fun _ _ => (none, none, none)
    geminiRetail := fun _ _ => none
    geminiAuction := fun _ _ => none
    useGemini := true
    useLaLogin := false
    loginFetches := [] }

def listingA6 : Listing := mkRawMatch none none (some linkA6) none

def listingB6 : Listing := mkRawMatch (some ("chair".data)) none (some linkB6) none

/-- An environment whose every network request raises (times out):
used to witness the fetch-failure frame property. -/
def envFail : Env :=
  { net := fun _ => none
    findProduct := fun _ _ _ _ => none
    retailExtract := fun _ _ => none
    auctionExtract := fun _ _ => (none, none, none)
    geminiRetail := fun _ _ => none
    geminiAuction := fun _ _ => none
    useGemini := true
    useLaLogin := false
    loginFetches := [] }

-- ==========================================
-- Spec-side definitions (used only to STATE claims)
-- ==========================================

/-- Validator for a reversed (little-endian) comma-grouped integer
part: exactly-three-digit groups separated by commas, most-significant
group of one to three digits. -/
def leGroupsOk : PyStr → Bool
  | [a] => a.isDigit
  | [a, b] => a.isDigit && b.isDigit
  | [a, b, c] => a.isDigit && b.isDigit && c.isDigit
  | a :: b :: c :: ',' :: t => a.isDigit && b.isDigit && c.isDigit && leGroupsOk t
  | _ => false

/-- Value of a canonically comma-grouped integer part, `none` if the
grouping is not canonical. -/
def parseGrouped (ip : PyStr) : Option ℕ :=
  if leGroupsOk ip.reverse then some (natFromDigitChars (ip.filter (· ≠ ','))) else none

/-- The amount in cents denoted by a canonical money string (spec §3:
`"$"` plus a comma-grouped integer, optionally with exactly two
decimals); `none` when the string is not canonical. -/
def canonVal (s : PyStr) : Option ℤ :=
  match s with
  | '$' :: t =>
    let ip := t.takeWhile (· ≠ '.')
    match t.dropWhile (· ≠ '.') with
    | [] => (parseGrouped ip).map (fun n => ((100 * n : ℕ) : ℤ))
    | ['.', a, b] =>
      if a.isDigit && b.isDigit then
        (parseGrouped ip).map (fun n => ((100 * n + 10 * charVal a + charVal b : ℕ) : ℤ))
      else none
    | _ => none
  | _ => none

/-- The accepted money grammar of spec §4.1: an optional currency
marker (`USD`, `US$`, `$`, with spaces), then a decimal numeral whose
integer part is either plain digits or canonically comma-grouped, then
optionally `.` and one or two digits; the whole string.  Returns the
denoted amount in cents. -/
def dropMoneyMarker (s : PyStr) : PyStr :=
  let s1 :=
    if ("US$".data).isPrefixOf s then s.drop 3
    else if ("USD".data).isPrefixOf s then s.drop 3
    else s
  let s2 := s1.dropWhile (· = ' ')
  let s3 := if s2.headD ' ' = '$' then s2.drop 1 else s2
  s3.dropWhile (· = ' ')

def specGrammarCents (s : PyStr) : Option ℤ :=
  let t := dropMoneyMarker s
  let ip := t.takeWhile (· ≠ '.')
  let ipOk := (!ip.isEmpty && ip.all Char.isDigit) || leGroupsOk ip.reverse
  let v := natFromDigitChars (ip.filter (· ≠ ','))
  match t.dropWhile (· ≠ '.') with
  | [] => if ipOk then some ((100 * v : ℕ) : ℤ) else none
  | ['.', a] => if ipOk && a.isDigit then some ((100 * v + 10 * charVal a : ℕ) : ℤ) else none
  | ['.', a, b] =>
    if ipOk && a.isDigit && b.isDigit then
      some ((100 * v + 10 * charVal a + charVal b : ℕ) : ℤ)
    else none
  | _ => none

/-- The canonical rendering of an amount given in cents (spec §4.1:
whole-dollar amounts without decimals, fractional amounts with exactly
two decimals, always with thousands separators). -/
def specCanonicalOfCents (c : ℤ) : PyStr :=
  if c % 100 = 0 then '$' :: groupNat (c.natAbs / 100) else '$' :: centsRender c

/-- URLs fetched by the budgeted, cache-guarded per-listing fetch
(app.py:663), in order. -/
def listingUrls (tr : List (FetchTag × PyStr)) : List PyStr :=
  tr.filterMap (fun e => if e.1 = FetchTag.listing then some e.2 else none)

/-- Number of in-scope listings in a list. -/
def inScopeCount (ms : List Listing) : ℕ := (ms.filter inScope).length

-- ==========================================
-- Lemmas: digits, grouping, canonical round trip
-- ==========================================

theorem charVal_digitChar {d : ℕ} (h : d < 10) : charVal (digitChar d) = d := by
  interval_cases d <;> decide

theorem isDigit_digitChar {d : ℕ} (h : d < 10) : (digitChar d).isDigit = true := by
  interval_cases d <;> decide

theorem ne_comma_of_isDigit {c : Char} (h : c.isDigit = true) : c ≠ ',' := by
  intro he; subst he; exact absurd h (by decide)

theorem ne_dot_of_isDigit {c : Char} (h : c.isDigit = true) : c ≠ '.' := by
  intro he; subst he; exact absurd h (by decide)

theorem natDigitsLE_lt (f : ℕ) : ∀ n d, d ∈ natDigitsLE f n → d < 10 := by
  induction f with
  | zero => intro n d h; simp [natDigitsLE] at h
  | succ f ih =>
    intro n d h
    cases n with
    | zero => simp [natDigitsLE] at h
    | succ k =>
      simp only [natDigitsLE, List.mem_cons] at h
      rcases h with h | h
      · subst h; exact Nat.mod_lt _ (by norm_num)
      · exact ih _ _ h

theorem natFromLE_natDigitsLE (f : ℕ) : ∀ n, n ≤ f → natFromLE (natDigitsLE f n) = n := by
  induction f with
  | zero => intro n h; interval_cases n; rfl
  | succ f ih =>
    intro n h
    cases n with
    | zero => rfl
    | succ k =>
      have hd : (k + 1) / 10 ≤ f := by
        have := Nat.div_lt_self (Nat.succ_pos k) (by norm_num : 1 < 10)
        omega
      simp only [natDigitsLE, natFromLE, ih _ hd]
      exact Nat.mod_add_div (k + 1) 10

theorem natFromDigitChars_reverse (ds : List ℕ) (h : ∀ d ∈ ds, d < 10) :
    natFromDigitChars ((ds.map digitChar).reverse) = natFromLE ds := by
  induction ds with
  | nil => rfl
  | cons d ds ih =>
    have hd : d < 10 := h d (by simp)
    have hds : ∀ x ∈ ds, x < 10 := fun x hx => h x (by simp [hx])
    simp only [List.map_cons, List.reverse_cons, natFromDigitChars, List.foldl_append,
      List.foldl_cons, List.foldl_nil] at *
    rw [show (List.foldl (fun a c => 10 * a + charVal c) 0 (List.map digitChar ds).reverse)
        = natFromDigitChars ((ds.map digitChar).reverse) from rfl] at *
    rw [ih hds, charVal_digitChar hd, natFromLE]
    ring

theorem leRender_ne_nil : ∀ l : List Char, l ≠ [] → leRender l ≠ [] := by
  intro l h
  match l with
  | [a] => simp [leRender]
  | [a, b] => simp [leRender]
  | [a, b, c] => simp [leRender]
  | a :: b :: c :: d :: t => simp [leRender]

theorem mem_leRender : ∀ l : List Char, ∀ x, x ∈ leRender l → x ∈ l ∨ x = ',' := by
  intro l
  induction l using leRender.induct with
  | case1 => intro x hx; simp [leRender] at hx
  | case2 a => intro x hx; simp [leRender] at hx; simp [hx]
  | case3 a b => intro x hx; simp [leRender] at hx; rcases hx with h | h <;> simp [h]
  | case4 a b c => intro x hx; simp [leRender] at hx; rcases hx with h | h | h <;> simp [h]
  | case5 a b c d t ih =>
    intro x hx
    simp only [leRender, List.mem_cons] at hx
    rcases hx with h | h | h | h | h
    · left; simp [h]
    · left; simp [h]
    · left; simp [h]
    · right; exact h
    · rcases ih x h with h2 | h2
      · left; simp only [List.mem_cons] at h2 ⊢; tauto
      · right; exact h2

theorem leGroupsOk_leRender : ∀ l : List Char, (∀ c ∈ l, c.isDigit = true) → l ≠ [] →
    leGroupsOk (leRender l) = true := by
  intro l
  induction l using leRender.induct with
  | case1 => intro _ h; exact absurd rfl h
  | case2 a => intro h _; simpa [leRender, leGroupsOk] using h a (by simp)
  | case3 a b =>
    intro h _
    simp [leRender, leGroupsOk, h a (by simp), h b (by simp)]
  | case4 a b c =>
    intro h _
    simp [leRender, leGroupsOk, h a (by simp), h b (by simp), h c (by simp)]
  | case5 a b c d t ih =>
    intro h _
    have hrest : leRender (d :: t) ≠ [] := leRender_ne_nil _ (by simp)
    have ihv := ih (fun x hx => h x (by simp only [List.mem_cons] at hx ⊢; tauto)) (by simp)
    match hr : leRender (d :: t) with
    | [] => exact absurd hr hrest
    | r :: rs =>
      rw [hr] at ihv
      simp [leRender, leGroupsOk, hr, h a (by simp), h b (by simp), h c (by simp), ihv]

theorem filter_leRender : ∀ l : List Char, (∀ c ∈ l, c.isDigit = true) →
    (leRender l).filter (fun c => c ≠ ',') = l := by
  intro l
  induction l using leRender.induct with
  | case1 => simp [leRender]
  | case2 a => intro h; simp [leRender, List.filter, ne_comma_of_isDigit (h a (by simp))]
  | case3 a b =>
    intro h
    simp [leRender, List.filter, ne_comma_of_isDigit (h a (by simp)),
      ne_comma_of_isDigit (h b (by simp))]
  | case4 a b c =>
    intro h
    simp [leRender, List.filter, ne_comma_of_isDigit (h a (by simp)),
      ne_comma_of_isDigit (h b (by simp)), ne_comma_of_isDigit (h c (by simp))]
  | case5 a b c d t ih =>
    intro h
    have ihv := ih (fun x hx => h x (by simp only [List.mem_cons] at hx ⊢; tauto))
    simp at ihv
    simp [leRender, List.filter, ne_comma_of_isDigit (h a (by simp)),
      ne_comma_of_isDigit (h b (by simp)), ne_comma_of_isDigit (h c (by simp)), ihv]

theorem takeWhile_append_all {p : Char → Bool} {l1 : List Char} (l2 : List Char)
    (h : ∀ c ∈ l1, p c = true) : (l1 ++ l2).takeWhile p = l1 ++ l2.takeWhile p := by
  induction l1 with
  | nil => simp
  | cons a t ih =>
    simp only [List.cons_append, List.takeWhile_cons, h a (by simp)]
    rw [ih (fun c hc => h c (by simp [hc]))]
    simp

theorem dropWhile_append_all {p : Char → Bool} {l1 : List Char} (l2 : List Char)
    (h : ∀ c ∈ l1, p c = true) : (l1 ++ l2).dropWhile p = l2.dropWhile p := by
  induction l1 with
  | nil => simp
  | cons a t ih =>
    simp only [List.cons_append, List.dropWhile_cons, h a (by simp)]
    exact ih (fun c hc => h c (by simp [hc]))

theorem groupNat_digits_or_comma {n : ℕ} {c : Char} (h : c ∈ groupNat n) :
    c.isDigit = true ∨ c = ',' := by
  by_cases h0 : n = 0
  · subst h0; simp [groupNat] at h; subst h; left; decide
  · simp only [groupNat, h0, if_false, List.mem_reverse] at h
    rcases mem_leRender _ _ h with h2 | h2
    · simp only [List.mem_map] at h2
      obtain ⟨d, hd, rfl⟩ := h2
      exact Or.inl (isDigit_digitChar (natDigitsLE_lt _ _ _ hd))
    · exact Or.inr h2

theorem groupNat_not_dot {n : ℕ} {c : Char} (h : c ∈ groupNat n) : (c ≠ '.') = True := by
  rcases groupNat_digits_or_comma h with h2 | h2
  · simp [ne_dot_of_isDigit h2]
  · subst h2; simp

theorem parseGrouped_groupNat (n : ℕ) : parseGrouped (groupNat n) = some n := by
  by_cases h0 : n = 0
  · subst h0; decide
  · have hne : natDigitsLE n n ≠ [] := by
      match n, h0 with
      | k + 1, _ => simp [natDigitsLE]
    have hlt : ∀ d ∈ natDigitsLE n n, d < 10 := natDigitsLE_lt n n
    have hdig : ∀ c ∈ (natDigitsLE n n).map digitChar, c.isDigit = true := by
      intro c hc
      simp only [List.mem_map] at hc
      obtain ⟨d, hd, rfl⟩ := hc
      exact isDigit_digitChar (hlt d hd)
    have hmapne : (natDigitsLE n n).map digitChar ≠ [] := by
      simpa using hne
    simp only [groupNat, h0, if_false, parseGrouped, List.reverse_reverse,
      leGroupsOk_leRender _ hdig hmapne, if_true]
    rw [List.filter_reverse, filter_leRender _ hdig, natFromDigitChars_reverse _ hlt,
      natFromLE_natDigitsLE n n le_rfl]

theorem canonVal_dollar_groupNat (n : ℕ) :
    canonVal ('$' :: groupNat n) = some ((100 * n : ℕ) : ℤ) := by
  have ht : (groupNat n).takeWhile (fun c => c ≠ '.') = groupNat n := by
    rw [List.takeWhile_eq_self_iff]
    intro c hc
    simp [show (c ≠ '.') = True from groupNat_not_dot hc]
  have hd : (groupNat n).dropWhile (fun c => c ≠ '.') = [] := by
    rw [List.dropWhile_eq_nil_iff]
    intro c hc
    simp [show (c ≠ '.') = True from groupNat_not_dot hc]
  simp only [canonVal, ht, hd, parseGrouped_groupNat, Option.map_some']

theorem canonVal_dollar_centsRender {c : ℤ} (h : 0 ≤ c) :
    canonVal ('$' :: centsRender c) = some c := by
  have hnotlt : ¬ c < 0 := not_lt.mpr h
  have hda : (digitChar (c.natAbs % 100 / 10)).isDigit = true :=
    isDigit_digitChar (by omega)
  have hdb : (digitChar (c.natAbs % 10)).isDigit = true :=
    isDigit_digitChar (by omega)
  have hgn : ∀ x ∈ groupNat (c.natAbs / 100), (x ≠ '.') = True := fun x hx =>
    groupNat_not_dot hx
  have ht : (groupNat (c.natAbs / 100) ++
      '.' :: [digitChar (c.natAbs % 100 / 10), digitChar (c.natAbs % 10)]).takeWhile
        (fun x => x ≠ '.') = groupNat (c.natAbs / 100) := by
    rw [takeWhile_append_all _ (fun x hx => by simp [hgn x hx])]
    simp [List.takeWhile_cons]
  have hd : (groupNat (c.natAbs / 100) ++
      '.' :: [digitChar (c.natAbs % 100 / 10), digitChar (c.natAbs % 10)]).dropWhile
        (fun x => x ≠ '.') = '.' :: [digitChar (c.natAbs % 100 / 10), digitChar (c.natAbs % 10)] := by
    rw [dropWhile_append_all _ (fun x hx => by simp [hgn x hx])]
    simp [List.dropWhile_cons]
  simp only [centsRender, hnotlt, if_false, List.nil_append, canonVal, ht, hd, hda, hdb,
    Bool.and_self, if_true, parseGrouped_groupNat, Option.map_some', Option.some.injEq]
  rw [charVal_digitChar (by omega : c.natAbs % 100 / 10 < 10),
    charVal_digitChar (by omega : c.natAbs % 10 < 10)]
  have : 100 * (c.natAbs / 100) + 10 * (c.natAbs % 100 / 10) + c.natAbs % 10 = c.natAbs := by
    omega
  rw [this, Int.natAbs_of_nonneg h]

theorem halfEvenDiv_mem {m dv : ℤ} :
    halfEvenDiv m dv = m.fdiv dv ∨ halfEvenDiv m dv = m.fdiv dv + 1 := by
  unfold halfEvenDiv
  split
  · exact Or.inl rfl
  · split
    · exact Or.inr rfl
    · split
      · exact Or.inl rfl
      · exact Or.inr rfl

theorem halfEvenDiv_ge {m dv A : ℤ} (hdv : 0 < dv) (hA : A * dv ≤ m) :
    A ≤ halfEvenDiv m dv := by
  have hfd : m.fdiv dv = m / dv := Int.fdiv_eq_ediv m hdv.le
  have hq : A ≤ m / dv := by
    rw [Int.le_ediv_iff_mul_le hdv]; exact hA
  rcases @halfEvenDiv_mem m dv with h | h <;> rw [h, hfd] <;> omega

theorem halfEvenDiv_le {m dv B : ℤ} (hdv : 0 < dv) (hB : m ≤ B * dv) :
    halfEvenDiv m dv ≤ B := by
  have hfd : m.fdiv dv = m / dv := Int.fdiv_eq_ediv m hdv.le
  have hfm : m.fmod dv = m % dv := Int.fmod_eq_emod m hdv.le
  have hr0 : 0 ≤ m % dv := Int.emod_nonneg m hdv.ne'
  have heq : m % dv + dv * (m / dv) = m := Int.emod_add_ediv m dv
  have hq : m / dv ≤ B := by
    by_contra hc
    push_neg at hc
    have : (B + 1) * dv ≤ (m / dv) * dv := by
      apply mul_le_mul_of_nonneg_right _ hdv.le
      omega
    nlinarith
  rcases lt_or_eq_of_le hq with hlt | heqb
  · rcases @halfEvenDiv_mem m dv with h | h <;> rw [h, hfd] <;> omega
  · -- q = B exactly: then the remainder is zero, so no rounding up
    have hrz : m % dv = 0 := by nlinarith [heq, hB, heqb]
    unfold halfEvenDiv
    rw [hfm, hfd, hrz]
    simp only [mul_zero]
    rw [if_pos hdv]
    omega

theorem roundCents_ge {d : Dec} (h1 : (10 : ℤ) ^ d.e ≤ d.m) : 100 ≤ roundCents d := by
  unfold roundCents
  split
  · next he =>
    have hsum : d.e + (2 - d.e) = 2 := by omega
    have hp : (0 : ℤ) < 10 ^ (2 - d.e) := by positivity
    calc (100 : ℤ) = 10 ^ 2 := by norm_num
    _ = 10 ^ d.e * 10 ^ (2 - d.e) := by rw [← pow_add, hsum]
    _ ≤ d.m * 10 ^ (2 - d.e) := by
        apply mul_le_mul_of_nonneg_right h1 hp.le
  · next he =>
    apply halfEvenDiv_ge (by positivity)
    have hsum : 2 + (d.e - 2) = d.e := by omega
    calc (100 : ℤ) * 10 ^ (d.e - 2) = 10 ^ 2 * 10 ^ (d.e - 2) := by norm_num
    _ = 10 ^ d.e := by rw [← pow_add, hsum]
    _ ≤ d.m := h1

theorem roundCents_le {d : Dec} (h2 : d.m ≤ 200000000 * 10 ^ d.e) :
    roundCents d ≤ 20000000000 := by
  unfold roundCents
  split
  · next he =>
    have hsum : d.e + (2 - d.e) = 2 := by omega
    have hp : (0 : ℤ) < 10 ^ (2 - d.e) := by positivity
    calc d.m * 10 ^ (2 - d.e) ≤ 200000000 * 10 ^ d.e * 10 ^ (2 - d.e) := by
          apply mul_le_mul_of_nonneg_right h2 hp.le
    _ = 200000000 * (10 ^ d.e * 10 ^ (2 - d.e)) := by ring
    _ = 200000000 * 10 ^ 2 := by rw [← pow_add, hsum]
    _ = 20000000000 := by norm_num
  · next he =>
    apply halfEvenDiv_le (by positivity)
    have hsum : 2 + (d.e - 2) = d.e := by omega
    calc d.m ≤ 200000000 * 10 ^ d.e := h2
    _ = 200000000 * (10 ^ 2 * 10 ^ (d.e - 2)) := by rw [← pow_add, hsum]
    _ = 20000000000 * 10 ^ (d.e - 2) := by ring

/-- The two plausibility-gate conditions of `_sanitize_money`, read off
from `decLtB` being false. -/
theorem band_of_decLtB_lower {d : Dec} (h : decLtB d ⟨1, 0⟩ = false) :
    (10 : ℤ) ^ d.e ≤ d.m := by
  unfold decLtB at h
  simp only [decide_eq_false_iff_not, not_lt] at h
  simpa using h

theorem band_of_decLtB_upper {d : Dec} (h : decLtB ⟨200000000, 0⟩ d = false) :
    d.m ≤ 200000000 * 10 ^ d.e := by
  unfold decLtB at h
  simp only [decide_eq_false_iff_not, not_lt] at h
  simpa using h

/-- The central canonical-form lemma: a decimal that passed the `$1`
lower gate formats to a canonical money string whose denoted cent value
is at least 100, and at most 2·10^10 when it also passed the
`$200,000,000` upper gate. -/
theorem canonVal_format_money {d : Dec} (h1 : decLtB d ⟨1, 0⟩ = false) :
    ∃ c : ℤ, canonVal (format_money d) = some c ∧ 100 ≤ c ∧
      (decLtB ⟨200000000, 0⟩ d = false → c ≤ 20000000000) := by
  have hlo := band_of_decLtB_lower h1
  have hpow : (0 : ℤ) < 10 ^ d.e := by positivity
  unfold format_money
  split
  · next hint =>
    -- integral value: "$" ++ grouped int
    unfold decIntegralB at hint
    simp only [decide_eq_true_eq] at hint
    have hq : 10 ^ d.e * (d.m / 10 ^ d.e) = d.m := by
      have := Int.emod_add_ediv d.m ((10 : ℤ) ^ d.e)
      omega
    set i := d.m / (10 : ℤ) ^ d.e with hi
    have hi1 : 1 ≤ i := by
      have h' : 10 ^ d.e * 1 ≤ 10 ^ d.e * i := by
        rw [mul_one, hq]; exact hlo
      exact le_of_mul_le_mul_left h' hpow
    have hipos : ¬ i < 0 := by linarith
    have habs : (i.natAbs : ℤ) = i := Int.natAbs_of_nonneg (by linarith)
    refine ⟨((100 * i.natAbs : ℕ) : ℤ), ?_, ?_, ?_⟩
    · rw [intComma, if_neg hipos]
      exact canonVal_dollar_groupNat i.natAbs
    · push_cast
      rw [abs_of_nonneg (by linarith : (0 : ℤ) ≤ i)]
      linarith
    · intro hup
      have hhi := band_of_decLtB_upper hup
      have hile : i ≤ 200000000 := by
        have h' : 10 ^ d.e * i ≤ 10 ^ d.e * 200000000 := by
          rw [hq]
          calc d.m ≤ 200000000 * 10 ^ d.e := hhi
          _ = 10 ^ d.e * 200000000 := by ring
        exact le_of_mul_le_mul_left h' hpow
      push_cast
      rw [abs_of_nonneg (by linarith : (0 : ℤ) ≤ i)]
      linarith
  · next hint =>
    have hc100 : 100 ≤ roundCents d := roundCents_ge hlo
    refine ⟨roundCents d, canonVal_dollar_centsRender (by omega), hc100, ?_⟩
    intro hup
    exact roundCents_le (band_of_decLtB_upper hup)

-- ==========================================
-- Lemmas: the enrichment loop
-- ==========================================

theorem listingUrls_append (a b : List (FetchTag × PyStr)) :
    listingUrls (a ++ b) = listingUrls a ++ listingUrls b :=
  List.filterMap_append a b _

theorem listingUrls_listing (u : PyStr) :
    listingUrls [(FetchTag.listing, u)] = [u] := by
  simp [listingUrls]

theorem listingUrls_chairishSearch (u : PyStr) :
    listingUrls [(FetchTag.chairishSearch, u)] = [] := by
  simp [listingUrls]

theorem listingUrls_login (ls : List PyStr) :
    listingUrls (ls.map (fun u => (FetchTag.login, u))) = [] := by
  induction ls with
  | nil => rfl
  | cons a t ih =>
    simp only [List.map_cons, listingUrls, List.filterMap_cons] at ih ⊢
    simp only [show (FetchTag.login = FetchTag.listing) = False by simp, if_false]
    exact ih

theorem cacheGet_cons (u : Update) (url k : PyStr) (c : List (PyStr × Update)) :
    cacheGet ((url, u) :: c) k = if url == k then some u else cacheGet c k := by
  unfold cacheGet
  by_cases h : (url == k) = true <;> simp [List.find?, h]

theorem chairishSearchStep_state (env : Env) (st1 : RunState) (base title thumb : PyStr) :
    (chairishSearchStep env st1 base title thumb).2.scraped = st1.scraped ∧
    (chairishSearchStep env st1 base title thumb).2.cache = st1.cache ∧
    listingUrls (chairishSearchStep env st1 base title thumb).2.trace
      = listingUrls st1.trace := by
  unfold chairishSearchStep
  dsimp only
  split <;>
    exact ⟨rfl, rfl, by rw [listingUrls_append, listingUrls_chairishSearch, List.append_nil]⟩

/-- Lemma: `chairishResolve` touches no state apart from possibly appending a
search-tagged fetch to the trace. -/
theorem chairishResolve_state (env : Env) (st1 : RunState) (url host html title thumb : PyStr)
    (upd0 : Update) :
    (chairishResolve env st1 url host html title thumb upd0).2.scraped = st1.scraped ∧
    (chairishResolve env st1 url host html title thumb upd0).2.cache = st1.cache ∧
    listingUrls (chairishResolve env st1 url host html title thumb upd0).2.trace
      = listingUrls st1.trace := by
  unfold chairishResolve
  split
  · dsimp only
    split
    · dsimp only
      split
      · exact chairishSearchStep_state env st1 _ _ _
      · exact ⟨rfl, rfl, rfl⟩
    · exact ⟨rfl, rfl, rfl⟩
  · exact ⟨rfl, rfl, rfl⟩

theorem inScope_parts {m : Listing} (h : inScope m = true) :
    (pyStrip (m.link.getD [])).isEmpty = false ∧
      (hostMatchesAuction (hostname (pyStrip (m.link.getD []))) ||
        hostMatchesRetail (hostname (pyStrip (m.link.getD [])))) = true := by
  unfold inScope at h
  rcases Bool.and_eq_true_iff.mp h with ⟨h1, h2⟩
  exact ⟨by simpa using h1, h2⟩

theorem enrichStep_not_inScope (env : Env) (st : RunState) (m : Listing)
    (h : inScope m = false) : enrichStep env st m = (m, st) := by
  unfold enrichStep
  by_cases hu : (pyStrip (m.link.getD [])).isEmpty
  · simp [hu]
  · have hu' : (pyStrip (m.link.getD [])).isEmpty = false := by simpa using hu
    unfold inScope at h
    rw [hu'] at h
    simp only [Bool.not_false, Bool.true_and] at h
    simp [hu', h]

theorem enrichStep_cache_hit (env : Env) (st : RunState) (m : Listing) (cu : Update)
    (h : inScope m = true)
    (hc : cacheGet st.cache (pyStrip (m.link.getD [])) = some cu) :
    enrichStep env st m =
      (applyUpdate { m with kind := some (kindAfterDefault m (pyStrip (m.link.getD []))) } cu,
       { st with scraped := st.scraped + 1 }) := by
  obtain ⟨hu, ht⟩ := inScope_parts h
  unfold enrichStep
  simp [hu, ht, hc]

/-- The per-step accounting: a non-in-scope listing changes nothing; an
in-scope listing consumes exactly one unit of budget. -/
theorem enrichStep_scraped (env : Env) (st : RunState) (m : Listing)
    (h : inScope m = true) :
    (enrichStep env st m).2.scraped = st.scraped + 1 := by
  obtain ⟨hu, ht⟩ := inScope_parts h
  unfold enrichStep
  simp only [hu, Bool.false_eq_true, if_false, ht, Bool.not_true, if_true]
  cases hc : cacheGet st.cache (pyStrip (m.link.getD [])) with
  | some cu => simp [hc]
  | none =>
    simp only [hc]
    split
    · rfl
    · dsimp only
      rw [(chairishResolve_state env _ _ _ _ _ _ _).1]

/-- The per-step trace/cache evolution: either the state's trace and
cache are untouched, or exactly one listing-tagged fetch of a
previously uncached URL happened and that URL is now cached. -/
theorem enrichStep_trace_cache (env : Env) (st : RunState) (m : Listing) :
    (listingUrls (enrichStep env st m).2.trace = listingUrls st.trace ∧
      (enrichStep env st m).2.cache = st.cache) ∨
    (∃ u, listingUrls (enrichStep env st m).2.trace = listingUrls st.trace ++ [u] ∧
      cacheGet st.cache u = none ∧
      ((cacheGet (enrichStep env st m).2.cache u).isSome = true) ∧
      ∀ k, (cacheGet st.cache k).isSome = true →
        (cacheGet (enrichStep env st m).2.cache k).isSome = true) := by
  by_cases hscope : inScope m = true
  case neg =>
    left
    rw [enrichStep_not_inScope env st m (by simpa using hscope)]
    exact ⟨rfl, rfl⟩
  case pos =>
    obtain ⟨hu, ht⟩ := inScope_parts hscope
    unfold enrichStep
    dsimp only
    rw [if_neg (by simp [hu]), if_neg (by simp [ht])]
    cases hc : cacheGet st.cache (pyStrip (m.link.getD [])) with
    | some cu => left; exact ⟨rfl, rfl⟩
    | none =>
      right
      refine ⟨pyStrip (m.link.getD []), ?_⟩
      simp only [hc]
      split
      · refine ⟨?_, trivial, ?_, ?_⟩
        · rw [listingUrls_append, listingUrls_listing]
        · rw [cacheGet_cons]; simp
        · intro k hk
          rw [cacheGet_cons]
          split <;> simp [hk]
      · dsimp only
        have hcr := chairishResolve_state env
          { st with trace := st.trace ++ [(FetchTag.listing, pyStrip (m.link.getD []))] }
          (pyStrip (m.link.getD [])) (hostname (pyStrip (m.link.getD [])))
          ((fetch_html (env.net (pyStrip (m.link.getD [])))).1.getD [])
          (pyStrip (m.title.getD [])) (pyStrip (m.thumbnail.getD []))
          { http_status := some (fetch_html (env.net (pyStrip (m.link.getD [])))).2 }
        refine ⟨?_, trivial, ?_, ?_⟩
        · rw [hcr.2.2]
          rw [show ({ st with trace := st.trace ++ [(FetchTag.listing, pyStrip (m.link.getD []))] } : RunState).trace
              = st.trace ++ [(FetchTag.listing, pyStrip (m.link.getD []))] from rfl,
            listingUrls_append, listingUrls_listing]
        · rw [cacheGet_cons]; simp
        · intro k hk
          rw [cacheGet_cons]
          split
          · simp
          · rw [hcr.2.1]; exact hk

/-- The fetch-failure path of the loop: only `_http_status` (and the
`kind` setdefault) are written; title, link, thumbnail and every price
field are untouched, and the listing consumes one unit of budget. -/
theorem enrichStep_fetch_fail (env : Env) (st : RunState) (m : Listing)
    (h : inScope m = true)
    (hc : cacheGet st.cache (pyStrip (m.link.getD [])) = none)
    (hf : (fetch_html (env.net (pyStrip (m.link.getD [])))).1 = none) :
    (enrichStep env st m).1.title = m.title ∧
    (enrichStep env st m).1.link = m.link ∧
    (enrichStep env st m).1.thumbnail = m.thumbnail ∧
    (enrichStep env st m).1.retail_price = m.retail_price ∧
    (enrichStep env st m).1.auction_low = m.auction_low ∧
    (enrichStep env st m).1.auction_high = m.auction_high ∧
    (enrichStep env st m).1.auction_reserve = m.auction_reserve ∧
    (enrichStep env st m).2.scraped = st.scraped + 1 := by
  obtain ⟨hu, ht⟩ := inScope_parts h
  unfold enrichStep
  dsimp only
  rw [if_neg (by simp [hu]), if_neg (by simp [ht])]
  simp only [hc]
  rw [if_pos (by simp [hf, pyTruthy])]
  exact ⟨rfl, rfl, rfl, rfl, rfl, rfl, rfl, rfl⟩

theorem enrichGo_length (env : Env) (maxN : ℕ) :
    ∀ (ms : List Listing) (st : RunState),
      (enrichGo env maxN st ms).1.length = ms.length := by
  intro ms
  induction ms with
  | nil => intro st; rfl
  | cons m rest ih =>
    intro st
    unfold enrichGo
    split
    · rfl
    · simp only [List.length_cons, ih]

/-- Budget accounting for the loop: started with `st.scraped ≤ N` and
at least `N - st.scraped` in-scope listings ahead, the loop ends with
`scraped = N`, and the input splits into a processed prefix holding
exactly `N - st.scraped` in-scope listings and an untouched suffix
returned verbatim. -/
theorem enrichGo_budget (env : Env) (N : ℕ) :
    ∀ (ms : List Listing) (st : RunState), st.scraped ≤ N →
      N - st.scraped ≤ inScopeCount ms →
      (enrichGo env N st ms).2.scraped = N ∧
      ∃ p q, ms = p ++ q ∧ (enrichGo env N st ms).1.drop p.length = q ∧
        inScopeCount p = N - st.scraped ∧
        inScopeCount q = inScopeCount ms - (N - st.scraped) := by
  intro ms
  induction ms with
  | nil =>
    intro st h1 h2
    have : st.scraped = N := by
      simp only [inScopeCount, List.filter_nil, List.length_nil] at h2
      omega
    refine ⟨this, [], [], rfl, rfl, ?_, ?_⟩ <;> simp [inScopeCount, this]
  | cons m rest ih =>
    intro st h1 h2
    unfold enrichGo
    split
    · next hbreak =>
      have hs : st.scraped = N := by omega
      refine ⟨hs, [], m :: rest, rfl, rfl, ?_, ?_⟩ <;> simp [inScopeCount, hs]
    · next hbreak =>
      have hlt : st.scraped < N := by omega
      by_cases hm : inScope m = true
      · have hstep := enrichStep_scraped env st m hm
        have hcount : inScopeCount (m :: rest) = inScopeCount rest + 1 := by
          simp [inScopeCount, hm]
        have hrec := ih (enrichStep env st m).2 (by omega) (by omega)
        obtain ⟨hsc, p, q, hpq, hdrop, hp, hq⟩ := hrec
        rw [hstep] at hp hq
        refine ⟨hsc, m :: p, q, by simp [hpq], ?_, ?_, ?_⟩
        · simpa using hdrop
        · have hcp : inScopeCount (m :: p) = inScopeCount p + 1 := by
            simp [inScopeCount, hm]
          rw [hcp, hp]
          omega
        · rw [hq, hcount]
          omega
      · have hm' : inScope m = false := by simpa using hm
        rw [enrichStep_not_inScope env st m hm']
        have hcount : inScopeCount (m :: rest) = inScopeCount rest := by
          simp [inScopeCount, hm']
        have hrec := ih st h1 (by omega)
        obtain ⟨hsc, p, q, hpq, hdrop, hp, hq⟩ := hrec
        refine ⟨hsc, m :: p, q, by simp [hpq], ?_, ?_, ?_⟩
        · simpa using hdrop
        · have hcp : inScopeCount (m :: p) = inScopeCount p := by
            simp [inScopeCount, hm']
          rw [hcp, hp]
        · rw [hq, hcount]

/-- The run-level fetch-uniqueness invariant: from a state whose
listing-fetch history is duplicate-free and fully cached, the loop
keeps it duplicate-free and fully cached, fetches only URLs that were
uncached when first met, and never shrinks the cache. -/
theorem enrichGo_fetch_once (env : Env) (N : ℕ) :
    ∀ (ms : List Listing) (st : RunState),
      (listingUrls st.trace).Nodup →
      (∀ u ∈ listingUrls st.trace, (cacheGet st.cache u).isSome = true) →
      (listingUrls (enrichGo env N st ms).2.trace).Nodup ∧
      (∀ u ∈ listingUrls (enrichGo env N st ms).2.trace,
        (cacheGet (enrichGo env N st ms).2.cache u).isSome = true) ∧
      (∀ u, u ∈ listingUrls (enrichGo env N st ms).2.trace →
        u ∈ listingUrls st.trace ∨ cacheGet st.cache u = none) ∧
      (∀ k, (cacheGet st.cache k).isSome = true →
        (cacheGet (enrichGo env N st ms).2.cache k).isSome = true) := by
  intro ms
  induction ms with
  | nil =>
    intro st h1 h2
    exact ⟨h1, h2, fun u hu => Or.inl hu, fun k hk => hk⟩
  | cons m rest ih =>
    intro st h1 h2
    unfold enrichGo
    split
    · exact ⟨h1, h2, fun u hu => Or.inl hu, fun k hk => hk⟩
    · rcases enrichStep_trace_cache env st m with ⟨htr, hca⟩ | ⟨u, htr, hmiss, hsome, hmono⟩
      · have hrec := ih (enrichStep env st m).2 (htr ▸ h1)
          (fun v hv => by rw [hca]; exact h2 v (htr ▸ hv))
        obtain ⟨r1, r2, r3, r4⟩ := hrec
        refine ⟨r1, r2, ?_, ?_⟩
        · intro v hv
          rcases r3 v hv with hin | hnone
          · exact Or.inl (htr ▸ hin)
          · rw [hca] at hnone; exact Or.inr hnone
        · intro k hk
          exact r4 k (by rw [hca]; exact hk)
      · have hnodup : (listingUrls (enrichStep env st m).2.trace).Nodup := by
          rw [htr]
          apply List.Nodup.append h1 (List.nodup_singleton u)
          intro v hv hvu
          have : (cacheGet st.cache v).isSome = true := h2 v hv
          simp only [List.mem_singleton] at hvu
          rw [hvu, hmiss] at this
          exact absurd this (by simp)
        have hinv2 : ∀ v ∈ listingUrls (enrichStep env st m).2.trace,
            (cacheGet (enrichStep env st m).2.cache v).isSome = true := by
          intro v hv
          rw [htr] at hv
          rcases List.mem_append.mp hv with hv | hv
          · exact hmono v (h2 v hv)
          · simp only [List.mem_singleton] at hv
            rw [hv]; exact hsome
        have hrec := ih (enrichStep env st m).2 hnodup hinv2
        obtain ⟨r1, r2, r3, r4⟩ := hrec
        refine ⟨r1, r2, ?_, ?_⟩
        · intro v hv
          rcases r3 v hv with hin | hnone
          · rw [htr] at hin
            rcases List.mem_append.mp hin with hin | hin
            · exact Or.inl hin
            · simp only [List.mem_singleton] at hin
              rw [hin]; exact Or.inr hmiss
          · by_cases hk : (cacheGet st.cache v).isSome = true
            · have := hmono v hk
              rw [hnone] at this
              exact absurd this (by simp)
            · right
              cases hkk : cacheGet st.cache v with
              | none => rfl
              | some w => exact absurd (by rw [hkk]; rfl) hk
        · intro k hk
          exact r4 k (hmono k hk)

-- ==========================================
-- Remaining helper lemmas
-- ==========================================

theorem canonVal_format_money_lower {d : Dec} (h1 : decLtB d ⟨1, 0⟩ = false) :
    ∃ c : ℤ, canonVal (format_money d) = some c ∧ 100 ≤ c := by
  obtain ⟨c, hc, hlo, _⟩ := canonVal_format_money h1
  exact ⟨c, hc, hlo⟩

theorem geminiJsonGo_none {α : Type} (attempt : ℕ → Option α) (h : ∀ i, attempt i = none) :
    ∀ (k i : ℕ), geminiJsonGo attempt i k = none := by
  intro k
  induction k with
  | zero => intro i; rfl
  | succ k ihk =>
    intro i
    unfold geminiJsonGo
    rw [h i]
    exact ihk (i + 1)

theorem kindFromDomain_cases (url : PyStr) :
    kind_from_domain url = "auction".data ∨ kind_from_domain url = "retail".data ∨
      kind_from_domain url = "other".data := by
  unfold kind_from_domain
  dsimp only
  split
  · exact Or.inl rfl
  · split
    · exact Or.inr (Or.inl rfl)
    · exact Or.inr (Or.inr rfl)

theorem keywordClassify_cases (title source link : PyStr) :
    ((keywordClassify title source link).kind = "auction".data ∨
      (keywordClassify title source link).kind = "retail".data ∨
      (keywordClassify title source link).kind = "other".data) ∧
    0 < (keywordClassify title source link).confidence ∧
    (keywordClassify title source link).confidence < 1 := by
  unfold keywordClassify
  dsimp only
  split
  · exact ⟨Or.inl rfl, by norm_num, by norm_num⟩
  · split
    · exact ⟨Or.inr (Or.inl rfl), by norm_num, by norm_num⟩
    · exact ⟨Or.inr (Or.inr rfl), by norm_num, by norm_num⟩

-- ==========================================
-- Claim theorems
-- ==========================================

/-- C1 (code bug): the spec's end-to-end scenario says a Chairish
listing whose page carries an `application/ld+json` USD Offer with
`"price": "2400.00"` ends up with `retailPrice == "$2,400"`.  On the
code, the deterministic pass sets it to `"$240"` instead:
`MONEY_CAPTURE_RE`'s first alternative captures only `"240"` out of
`"2400.00"` (its ungrouped-number alternative is unreachable), so
`_sanitize_money` canonicalizes the extracted price to `"$240"`. -/
theorem C1_retail_price_divergence :
    ((enrich_matches_with_prices envC1 [] [listingC1] 10).1.map Listing.retail_price)
      = [some ("$240".data)] ∧
    extract_chairish_price htmlC1 = some ("$240".data) ∧
    sanitize_money (.str ("2400.00".data)) = some ("$240".data) ∧
    some ("$240".data) ≠ some ("$2,400".data) := by
  refine ⟨by decide, by decide, by decide, by decide⟩

/-- C2 (amended): every string `_sanitize_money` returns is a canonical
`"$"`-string denoting an amount between $1 and $200,000,000 inclusive
(in cents: 100 … 2·10^10); each component `_sanitize_range` returns is
a canonical `"$"`-string denoting an amount of at least $1 — but the
$200,000,000 upper bound is NOT enforced for ranges (see the
counterexample). -/
theorem C2_money_band_amended :
    (∀ (v : MoneyInput) (s : PyStr), sanitize_money v = some s →
      ∃ c : ℤ, canonVal s = some c ∧ 100 ≤ c ∧ c ≤ 20000000000) ∧
    (∀ (lo hi : MoneyInput) (a b : PyStr), sanitize_range lo hi = (some a, some b) →
      (∃ ca : ℤ, canonVal a = some ca ∧ 100 ≤ ca) ∧
      (∃ cb : ℤ, canonVal b = some cb ∧ 100 ≤ cb)) := by
  have key : ∀ (x y : Dec) (a b : PyStr), decLtB x ⟨1, 0⟩ = false →
      decLtB y ⟨1, 0⟩ = false →
      ((some (format_money x) : Option PyStr), (some (format_money y) : Option PyStr))
        = (some a, some b) →
      (∃ ca : ℤ, canonVal a = some ca ∧ 100 ≤ ca) ∧
      (∃ cb : ℤ, canonVal b = some cb ∧ 100 ≤ cb) := by
    intro x y a b h1 h2 heq
    simp only [Prod.mk.injEq, Option.some.injEq] at heq
    obtain ⟨hx, hy⟩ := heq
    obtain ⟨ca, hca, hla⟩ := canonVal_format_money_lower h1
    obtain ⟨cb, hcb, hlb⟩ := canonVal_format_money_lower h2
    exact ⟨⟨ca, hx ▸ hca, hla⟩, ⟨cb, hy ▸ hcb, hlb⟩⟩
  constructor
  · intro v s h
    unfold sanitize_money at h
    cases hv : to_decimal_money v with
    | none => rw [hv] at h; exact absurd h (by simp)
    | some d =>
      rw [hv] at h
      dsimp only at h
      by_cases hg : (decLtB d ⟨1, 0⟩ || decLtB ⟨200000000, 0⟩ d) = true
      · rw [if_pos hg] at h
        exact absurd h (by simp)
      · have hg' : (decLtB d ⟨1, 0⟩ || decLtB ⟨200000000, 0⟩ d) = false := by
          simpa using hg
        rw [if_neg hg] at h
        obtain ⟨h1, h2⟩ := Bool.or_eq_false_iff.mp hg'
        obtain ⟨c, hcv, hlo, hhi⟩ := canonVal_format_money h1
        have hs : s = format_money d := by
          simpa using h.symm
        exact ⟨c, hs ▸ hcv, hlo, hhi h2⟩
  · intro lo hi a b h
    unfold sanitize_range at h
    cases hlo : to_decimal_money lo with
    | none =>
      rw [hlo] at h
      cases to_decimal_money hi <;> simp at h
    | some dlo =>
      rw [hlo] at h
      cases hhi : to_decimal_money hi with
      | none => rw [hhi] at h; simp at h
      | some dhi =>
        rw [hhi] at h
        dsimp only at h
        by_cases hsw : decLtB dhi dlo = true
        · rw [if_pos hsw] at h
          dsimp only at h
          by_cases hg : (decLtB dhi ⟨1, 0⟩ || decLtB dlo ⟨1, 0⟩) = true
          · rw [if_pos hg] at h
            exact absurd h (by simp)
          · have hg' : (decLtB dhi ⟨1, 0⟩ || decLtB dlo ⟨1, 0⟩) = false := by
              simpa using hg
            rw [if_neg hg] at h
            obtain ⟨h1, h2⟩ := Bool.or_eq_false_iff.mp hg'
            exact key dhi dlo a b h1 h2 h
        · rw [if_neg hsw] at h
          dsimp only at h
          by_cases hg : (decLtB dlo ⟨1, 0⟩ || decLtB dhi ⟨1, 0⟩) = true
          · rw [if_pos hg] at h
            exact absurd h (by simp)
          · have hg' : (decLtB dlo ⟨1, 0⟩ || decLtB dhi ⟨1, 0⟩) = false := by
              simpa using hg
            rw [if_neg hg] at h
            obtain ⟨h1, h2⟩ := Bool.or_eq_false_iff.mp hg'
            exact key dlo dhi a b h1 h2 h

theorem C2_money_band_amended_witness :
    (sanitize_money (.str ("5".data)) = some ("$5".data) ∧
      ∃ c : ℤ, canonVal ("$5".data) = some c ∧ 100 ≤ c ∧ c ≤ 20000000000) ∧
    (sanitize_range (.str ("90".data)) (.str ("30".data)) = (some ("$30".data), some ("$90".data)) ∧
      (∃ ca : ℤ, canonVal ("$30".data) = some ca ∧ 100 ≤ ca) ∧
      (∃ cb : ℤ, canonVal ("$90".data) = some cb ∧ 100 ≤ cb)) :=
  ⟨⟨by decide, C2_money_band_amended.1 (.str ("5".data)) "$5".data (by decide)⟩,
   ⟨by decide, C2_money_band_amended.2 (.str ("90".data)) (.str ("30".data)) "$30".data ("$90".data)
      (by decide)⟩⟩

/-- C2 counterexample: `_sanitize_range` checks only the `$1` lower
bound, so a range far above the `$200,000,000` band is stored on the
listing's money fields: both components denote amounts above the band
($3·10^8 and $4·10^8). -/
theorem C2_range_band_counterexample :
    sanitize_range (.str ("300,000,000".data)) (.str ("400,000,000".data))
      = (some ("$300,000,000".data), some ("$400,000,000".data)) ∧
    canonVal ("$400,000,000".data) = some 40000000000 ∧
    ¬ (40000000000 : ℤ) ≤ 20000000000 := by
  refine ⟨by decide, by decide, by decide⟩

/-- C3 (spec-modelled): when every retried generative call raises, the
bulk classifier (modelled from spec §4.6; not under src/) falls back to
the pure keyword heuristic, which never fails and gives every listing a
kind among auction/retail/other and a positive confidence below 1; and
the run handler that IS under src/ (app.py:1050-1052) independently
gives every raw match a non-null kind and a non-null positive
confidence. -/
theorem C3_keyword_fallback (attempt : ℕ → Option (List ClassifyOut)) (retries : ℕ)
    (ls : List BatchItem) (hfail : ∀ i, attempt i = none) :
    classifyAndExtractBatch attempt retries ls
        = ls.map (fun l => keywordClassify l.title l.source l.link) ∧
    (∀ o ∈ classifyAndExtractBatch attempt retries ls,
      (o.kind = "auction".data ∨ o.kind = "retail".data ∨ o.kind = "other".data) ∧
        0 < o.confidence ∧ o.confidence < 1) ∧
    (∀ t s l th, ∃ (k : PyStr) (c : ℚ),
      (assignKindConfidence (mkRawMatch t s l th)).kind = some (some k) ∧
      (k = "auction".data ∨ k = "retail".data ∨ k = "other".data) ∧
      (assignKindConfidence (mkRawMatch t s l th)).confidence = some (some c) ∧ 0 < c) := by
  have hnone : gemini_json attempt retries = none := geminiJsonGo_none attempt hfail retries 0
  have hbatch : classifyAndExtractBatch attempt retries ls
      = ls.map (fun l => keywordClassify l.title l.source l.link) := by
    unfold classifyAndExtractBatch
    rw [hnone]
  refine ⟨hbatch, ?_, ?_⟩
  · intro o ho
    rw [hbatch] at ho
    obtain ⟨l, _, rfl⟩ := List.mem_map.mp ho
    exact keywordClassify_cases l.title l.source l.link
  · intro t s l th
    refine ⟨kind_from_domain (l.getD []),
      (if kind_from_domain (l.getD []) = "auction".data ∨
          kind_from_domain (l.getD []) = "retail".data then (3 / 4 : ℚ) else 7 / 20),
      rfl, kindFromDomain_cases _, rfl, ?_⟩
    split <;> norm_num

theorem C3_keyword_fallback_witness :
    (∀ i : ℕ, (fun _ : ℕ => (none : Option (List ClassifyOut))) i = none) ∧
    classifyAndExtractBatch (fun _ => none) 3
        ([⟨"Louis chair".data, "Chairish".data, "https://www.chairish.com/x".data⟩] :
          List BatchItem)
      = ([⟨"Louis chair".data, "Chairish".data, "https://www.chairish.com/x".data⟩] :
          List BatchItem).map (fun l => keywordClassify l.title l.source l.link) :=
  ⟨fun _ => rfl,
   (C3_keyword_fallback (fun _ => none) 3
      ([⟨"Louis chair".data, "Chairish".data, "https://www.chairish.com/x".data⟩] :
        List BatchItem)
      (fun _ => rfl)).1⟩

/-- C4 (amended): `_fetch_html` never raises; it returns no body when
the request raised or the status is `>= 400`; and any body it does
return is trunc'd to at most 1,200,000 characters — which is the actual
hard cap (1.2 MB), not "single-digit hundreds of KB" as claimed (see
the counterexample). -/
theorem C4_fetch_contract :
    fetch_html none = (none, none) ∧
    (∀ (t : PyStr) (s : ℕ), 400 ≤ s → fetch_html (some (t, s)) = (none, some s)) ∧
    (∀ (r : Option (PyStr × ℕ)) (b : PyStr), (fetch_html r).1 = some b →
      b.length ≤ 1200000) := by
  refine ⟨rfl, ?_, ?_⟩
  · intro t s h
    unfold fetch_html
    dsimp only
    rw [if_pos h]
  · intro r b h
    cases r with
    | none => simp [fetch_html] at h
    | some ts =>
      unfold fetch_html at h
      dsimp only at h
      split at h
      · exact absurd h (by simp)
      · simp only [Option.some.injEq] at h
        rw [← h]
        rw [List.length_take]
        omega

theorem C4_fetch_contract_witness :
    ((400 : ℕ) ≤ 404 ∧ fetch_html (some ("x".data, 404)) = (none, some 404)) ∧
    ((fetch_html (some ("abc".data, 200))).1 = some ("abc".data) ∧
      ("abc".data : PyStr).length ≤ 1200000) :=
  ⟨⟨by norm_num, C4_fetch_contract.2.1 ("x".data) 404 (by norm_num)⟩,
   ⟨by decide, C4_fetch_contract.2.2 (some ("abc".data, 200)) "abc".data (by decide)⟩⟩

/-- C4 counterexample: a 1,500,000-character response body comes back
truncated to 1,200,000 characters — more than any "single-digit
hundreds of KB" cap (i.e. not below 1,000,000). -/
theorem C4_truncation_cap_counterexample :
    (fetch_html (some (List.replicate 1500000 'a', 200))).1
      = some (List.replicate 1200000 'a') ∧
    (List.replicate 1200000 'a' : PyStr).length = 1200000 ∧
    ¬ (1200000 : ℕ) < 1000000 := by
  refine ⟨?_, List.length_replicate 1200000 'a', by norm_num⟩
  unfold fetch_html
  dsimp only
  rw [if_neg (by norm_num : ¬ (400 : ℕ) ≤ 200)]
  rw [List.take_replicate]
  rw [show (1200000 ⊓ 1500000 : ℕ) = 1200000 from by norm_num]

/-- C5: with budget `N` and more than `N` in-scope listings, the loop
ends with `scraped = N` — every examined in-scope listing (cache hit,
failed fetch or successful scrape alike) consumes exactly one unit —
and the input splits into a prefix holding exactly the `N` processed
in-scope listings and a suffix, returned verbatim (unenriched), that
holds the remaining `M - N` in-scope listings. -/
theorem C5_scrape_budget (env : Env) (N : ℕ) (cache0 : List (PyStr × Update))
    (ms : List Listing) (h : N < inScopeCount ms) :
    (enrich_matches_with_prices env cache0 ms N).2.scraped = N ∧
    ∃ p q, ms = p ++ q ∧
      (enrich_matches_with_prices env cache0 ms N).1.drop p.length = q ∧
      inScopeCount p = N ∧ inScopeCount q = inScopeCount ms - N := by
  unfold enrich_matches_with_prices
  have hb := enrichGo_budget env N ms
    ⟨cache0, 0, if env.useLaLogin then env.loginFetches.map (fun u => (FetchTag.login, u))
      else []⟩ (by simp) (by simpa using h.le)
  simpa using hb

theorem C5_scrape_budget_witness :
    1 < inScopeCount [listingA6, listingB6] ∧
    (enrich_matches_with_prices env6 [] [listingA6, listingB6] 1).2.scraped = 1 ∧
    (enrich_matches_with_prices env6 [] [listingA6, listingB6] 1).1.drop 1 = [listingB6] :=
  ⟨by decide,
   (C5_scrape_budget env6 1 [] [listingA6, listingB6] (by decide)).1,
   by decide⟩

/-- C6 (amended): the budgeted per-listing fetch (app.py:663) is
cache-guarded, so within a run it fetches each URL at most once and
never fetches a URL already in the session cache; on a re-encounter of
a cached link the cached partial update is applied and no fetch
happens.  The headline "each listing URL is fetched over the network at
most once" is nevertheless false for the run as a whole, because the
Chairish search fetch (app.py:688) is not cached (see the
counterexample). -/
theorem C6_fetch_once_amended :
    (∀ (env : Env) (N : ℕ) (cache0 : List (PyStr × Update)) (ms : List Listing),
      (listingUrls (enrich_matches_with_prices env cache0 ms N).2.trace).Nodup ∧
      (∀ u, u ∈ listingUrls (enrich_matches_with_prices env cache0 ms N).2.trace →
        cacheGet cache0 u = none)) ∧
    (∀ (env : Env) (st : RunState) (m : Listing) (cu : Update), inScope m = true →
      cacheGet st.cache (pyStrip (m.link.getD [])) = some cu →
      enrichStep env st m =
        (applyUpdate { m with kind := some (kindAfterDefault m (pyStrip (m.link.getD []))) } cu,
         { st with scraped := st.scraped + 1 })) := by
  constructor
  · intro env N cache0 ms
    unfold enrich_matches_with_prices
    have htr0 : listingUrls
        ((⟨cache0, 0, if env.useLaLogin then
          env.loginFetches.map (fun u => (FetchTag.login, u)) else []⟩ : RunState)).trace
        = [] := by
      dsimp only
      split
      · exact listingUrls_login _
      · rfl
    have hfo := enrichGo_fetch_once env N ms
      ⟨cache0, 0, if env.useLaLogin then env.loginFetches.map (fun u => (FetchTag.login, u))
        else []⟩
      (by rw [htr0]; exact List.nodup_nil)
      (by rw [htr0]; intro u hu; exact absurd hu (List.not_mem_nil u))
    obtain ⟨r1, _, r3, _⟩ := hfo
    refine ⟨r1, ?_⟩
    intro u hu
    rcases r3 u hu with hin | hnone
    · rw [htr0] at hin
      exact absurd hin (List.not_mem_nil u)
    · exact hnone
  · exact fun env st m cu h hc => enrichStep_cache_hit env st m cu h hc

theorem C6_fetch_once_amended_witness :
    inScope listingA6 = true ∧
    cacheGet [(linkA6, ({} : Update))] (pyStrip (listingA6.link.getD [])) = some {} ∧
    enrichStep env6 ⟨[(linkA6, {})], 0, []⟩ listingA6 =
      (applyUpdate
        { listingA6 with
          kind := some (kindAfterDefault listingA6 (pyStrip (listingA6.link.getD []))) } {},
       ⟨[(linkA6, {})], 0 + 1, []⟩) :=
  ⟨by decide, by decide,
   C6_fetch_once_amended.2 env6 ⟨[(linkA6, {})], 0, []⟩ listingA6 {} (by decide) (by decide)⟩

/-- C6 counterexample: listing A's exact URL is fetched twice over the
network in one run.  A's link is a Chairish search URL; when the later
listing B (a non-canonical Chairish link titled "chair") fails product
resolution on its own page, the loop fetches
`https://www.chairish.com/search?query=chair` — A's link — again,
uncached.  Neither fetched page contains the substring `/product/`, so
`_find_chairish_product_link_by_image` finds no candidate on them
(both of its regexes require it), which is what `env6.findProduct`
returns. -/
theorem C6_double_fetch_counterexample :
    ((enrich_matches_with_prices env6 [] [listingA6, listingB6] 10).2.trace.map Prod.snd)
      = [linkA6, linkB6, linkA6] ∧
    ((enrich_matches_with_prices env6 [] [listingA6, listingB6] 10).2.trace.map
      Prod.snd).count linkA6 = 2 := by
  refine ⟨by decide, by decide⟩

/-- C7 (code bug): `"2400.00"` is in the accepted money grammar and
denotes $2,400.00, whose canonical equivalent is `"$2,400"`; but
`formatMoney(parseMoney("2400.00"))` is `"$240"`: the capture regex's
first alternative takes only the first three digits of an ungrouped
integer part, and its `[0-9]+` alternative is unreachable (ordered
alternation), so parsing truncates the value. -/
theorem C7_roundtrip_divergence :
    specGrammarCents ("2400.00".data) = some 240000 ∧
    to_decimal_money (.str ("2400.00".data)) = some ⟨240, 0⟩ ∧
    format_money ⟨240, 0⟩ = "$240".data ∧
    specCanonicalOfCents 240000 = "$2,400".data ∧
    "$240".data ≠ "$2,400".data := by
  refine ⟨by decide, by decide, by decide, by decide, by decide⟩

/-- C8 (amended): if either bound fails to parse, `_sanitize_range`
returns `(None, None)`; if both parse, are inverted, and BOTH denote at
least $1, the swapped ordered pair is returned.  (Without the `≥ $1`
condition the claim fails: an inverted pair below $1 yields
`(None, None)`, see the counterexample.) -/
theorem C8_sanitize_range_amended :
    (∀ lo hi : MoneyInput, (to_decimal_money lo = none ∨ to_decimal_money hi = none) →
      sanitize_range lo hi = (none, none)) ∧
    (∀ (lo hi : MoneyInput) (a b : Dec), to_decimal_money lo = some a →
      to_decimal_money hi = some b → decLtB b a = true →
      decLtB b ⟨1, 0⟩ = false → decLtB a ⟨1, 0⟩ = false →
      sanitize_range lo hi = (some (format_money b), some (format_money a))) := by
  constructor
  · intro lo hi h
    unfold sanitize_range
    rcases h with h | h
    · rw [h]
    · rw [h]
      cases to_decimal_money lo <;> rfl
  · intro lo hi a b hla hlb hsw h1 h2
    unfold sanitize_range
    rw [hla, hlb]
    dsimp only
    rw [if_pos hsw]
    dsimp only
    rw [if_neg (by simp [h1, h2])]

theorem C8_sanitize_range_amended_witness :
    (to_decimal_money MoneyInput.noneV = none ∧
      sanitize_range MoneyInput.noneV (.str ("5".data)) = (none, none)) ∧
    (to_decimal_money (.str ("80".data)) = some ⟨80, 0⟩ ∧
      to_decimal_money (.str ("20".data)) = some ⟨20, 0⟩ ∧
      decLtB ⟨20, 0⟩ ⟨80, 0⟩ = true ∧
      sanitize_range (.str ("80".data)) (.str ("20".data))
        = (some (format_money ⟨20, 0⟩), some (format_money ⟨80, 0⟩))) :=
  ⟨⟨rfl, C8_sanitize_range_amended.1 MoneyInput.noneV (.str ("5".data)) (Or.inl rfl)⟩,
   ⟨by decide, by decide, by decide,
    C8_sanitize_range_amended.2 (.str ("80".data)) (.str ("20".data)) ⟨80, 0⟩ ⟨20, 0⟩
      (by decide) (by decide) (by decide) (by decide) (by decide)⟩⟩

/-- C8 counterexample: `"0.50"` and `"0.25"` both parse and are
inverted (0.50 > 0.25), yet `_sanitize_range` returns `(None, None)`
instead of the swapped pair, because the swapped low end is below the
`$1` gate. -/
theorem C8_swap_below_one_counterexample :
    to_decimal_money (.str ("0.50".data)) = some ⟨50, 2⟩ ∧
    to_decimal_money (.str ("0.25".data)) = some ⟨25, 2⟩ ∧
    decLtB ⟨25, 2⟩ ⟨50, 2⟩ = true ∧
    sanitize_range (.str ("0.50".data)) (.str ("0.25".data)) = (none, none) := by
  refine ⟨by decide, by decide, by decide, by decide⟩

/-- C9: `_kind_from_domain` is a total function (it is defined for
every string, malformed URLs included — `_hostname` catches `urlparse`
failures and yields `""`), always returning exactly one of the three
kind strings; and it returns `"other"` precisely when the lower-cased,
`www.`-stripped netloc suffix-matches neither fixed domain set. -/
theorem C9_kind_from_domain_total :
    ∀ url : PyStr,
      (kind_from_domain url = "auction".data ∨ kind_from_domain url = "retail".data ∨
        kind_from_domain url = "other".data) ∧
      (kind_from_domain url = "other".data ↔
        (hostMatchesAuction (hostname url) = false ∧
          hostMatchesRetail (hostname url) = false)) := by
  intro url
  refine ⟨kindFromDomain_cases url, ?_⟩
  unfold kind_from_domain
  dsimp only
  by_cases ha : hostMatchesAuction (hostname url) = true
  · rw [if_pos ha]
    constructor
    · intro h; exact absurd h (by decide)
    · rintro ⟨h1, _⟩
      rw [ha] at h1
      exact absurd h1 (by decide)
  · have ha' : hostMatchesAuction (hostname url) = false := by simpa using ha
    rw [if_neg ha]
    by_cases hr : hostMatchesRetail (hostname url) = true
    · rw [if_pos hr]
      constructor
      · intro h; exact absurd h (by decide)
      · rintro ⟨_, h2⟩
        rw [hr] at h2
        exact absurd h2 (by decide)
    · have hr' : hostMatchesRetail (hostname url) = false := by simpa using hr
      rw [if_neg hr]
      exact ⟨fun _ => ⟨ha', hr'⟩, fun _ => rfl⟩

/-- C10: an in-scope listing whose fetch fails keeps its original
title, link and thumbnail, all of its price fields stay exactly as they
were (`None`/absent for a raw match), and the loop runs to completion —
the enrichment function is total and returns one output listing per
input listing. -/
theorem C10_fetch_fail_frame (env : Env) (st : RunState) (m : Listing)
    (h : inScope m = true)
    (hc : cacheGet st.cache (pyStrip (m.link.getD [])) = none)
    (hf : (fetch_html (env.net (pyStrip (m.link.getD [])))).1 = none) :
    ((enrichStep env st m).1.title = m.title ∧
      (enrichStep env st m).1.link = m.link ∧
      (enrichStep env st m).1.thumbnail = m.thumbnail ∧
      (enrichStep env st m).1.retail_price = m.retail_price ∧
      (enrichStep env st m).1.auction_low = m.auction_low ∧
      (enrichStep env st m).1.auction_high = m.auction_high ∧
      (enrichStep env st m).1.auction_reserve = m.auction_reserve) ∧
    (∀ (cache0 : List (PyStr × Update)) (ms : List Listing) (N : ℕ),
      (enrich_matches_with_prices env cache0 ms N).1.length = ms.length) := by
  obtain ⟨h1, h2, h3, h4, h5, h6, h7, _⟩ := enrichStep_fetch_fail env st m h hc hf
  refine ⟨⟨h1, h2, h3, h4, h5, h6, h7⟩, ?_⟩
  intro cache0 ms N
  unfold enrich_matches_with_prices
  exact enrichGo_length env N ms _

theorem C10_fetch_fail_frame_witness :
    inScope listingB6 = true ∧
    cacheGet ([] : List (PyStr × Update)) (pyStrip (listingB6.link.getD [])) = none ∧
    (fetch_html (envFail.net (pyStrip (listingB6.link.getD [])))).1 = none ∧
    (enrichStep envFail ⟨[], 0, []⟩ listingB6).1.title = listingB6.title ∧
    (enrichStep envFail ⟨[], 0, []⟩ listingB6).1.retail_price = listingB6.retail_price ∧
    (enrich_matches_with_prices envFail [] [listingA6, listingB6] 10).1.length = 2 := by
  have hmain := C10_fetch_fail_frame envFail ⟨[], 0, []⟩ listingB6 (by decide) (by decide)
    (by decide)
  exact ⟨by decide, by decide, by decide, hmain.1.1, hmain.1.2.2.2.1,
    hmain.2 [] [listingA6, listingB6] 10⟩
